import Mathlib

/-!
Verification of the StockData fetch-orchestration engine.

The Go sources are shallowly embedded: Go strings become `List Char`
(Go's `<` on strings is byte-lexicographic, which on the ASCII data used
here agrees with the lexicographic order on `List Char`), `time.Time`
values that the code uses as calendar dates become `Date` triples, Go
slices become lists, and the remote provider / database are passed in as
explicit arguments (oracles).  Machine integers stay well inside 64 bits
in every reachable computation, so they are modelled by `Int`/`Nat`.
-/

namespace StockData

/-- Model of a Go string (byte-lexicographic order = `List Char` lex order
on the ASCII data handled by this program). -/
abbrev GoStr := List Char

/-! ## Calendar model (the parts of Go's `time` package used by the code)

A `time.Time` produced by `time.Parse("20060102", s)` is a calendar date;
the code only ever formats, compares, steps (`AddDate`) and takes
`ISOWeek`/`Weekday` of such values, so a date triple plus its day ordinal
is a faithful model of the `time.Time` values that occur. -/

/-- Proleptic-Gregorian leap year, as in Go's `isLeap`. -/
def isLeap (y : Int) : Bool := (y % 4 == 0 && y % 100 != 0) || (y % 400 == 0)

/-- 1 in a leap year, 0 otherwise. -/
def leapAdj (y : Int) : Int := if isLeap y then 1 else 0

/-- Number of days in year `y`. -/
def daysInYear (y : Int) : Int := 365 + leapAdj y

/-- Days in month `m` of year `y` (Go's `daysIn`). -/
def daysInMonth (y m : Int) : Int :=
  if m = 2 then 28 + leapAdj y
  else if m = 4 ∨ m = 6 ∨ m = 9 ∨ m = 11 then 30
  else 31

/-- Days in year `y` strictly before month `m`, for `1 ≤ m ≤ 12` (Go's
`daysBefore` table, in closed form; `dbm_table` below checks it against
the table values month by month). -/
def daysBeforeMonth (y m : Int) : Int :=
  (367 * m - 362) / 12 - (if m ≤ 2 then 0 else 2 - leapAdj y)

/-- A calendar date. -/
structure Date where
  y : Int
  m : Int
  d : Int
deriving DecidableEq, Repr

/-- A date triple that denotes an actual calendar day. -/
def Date.ValidDate (t : Date) : Prop :=
  1 ≤ t.m ∧ t.m ≤ 12 ∧ 1 ≤ t.d ∧ t.d ≤ daysInMonth t.y t.m

instance (t : Date) : Decidable t.ValidDate := by unfold Date.ValidDate; infer_instance

/-- Zero-based day of year of a date. -/
def Date.yday (t : Date) : Int := daysBeforeMonth t.y t.m + t.d - 1

/-- Ordinal of January 1st of year `y`, counting days from 0000-01-01 of
the proleptic Gregorian calendar. -/
def yearStart (y : Int) : Int := 365 * y + (y + 3) / 4 - (y + 99) / 100 + (y + 399) / 400

/-- Day ordinal of a date (days since 0000-01-01). -/
def Date.toOrd (t : Date) : Int := yearStart t.y + t.yday

/-- Go weekday of a day ordinal (`Sunday = 0` … `Saturday = 6`);
0000-01-01 was a Saturday. -/
def weekdayOfOrd (o : Int) : Int := (o + 6) % 7

/-- Successor calendar day (`AddDate(0, 0, 1)`). -/
def succDate (t : Date) : Date :=
  if t.d < daysInMonth t.y t.m then ⟨t.y, t.m, t.d + 1⟩
  else if t.m < 12 then ⟨t.y, t.m + 1, 1⟩
  else ⟨t.y + 1, 1, 1⟩

/-- Predecessor calendar day (`AddDate(0, 0, -1)`). -/
def predDate (t : Date) : Date :=
  if 1 < t.d then ⟨t.y, t.m, t.d - 1⟩
  else if 1 < t.m then ⟨t.y, t.m - 1, daysInMonth t.y (t.m - 1)⟩
  else ⟨t.y - 1, 12, 31⟩

theorem leapAdj_cases (y : Int) : leapAdj y = 0 ∨ leapAdj y = 1 := by
  unfold leapAdj; split <;> simp

theorem dbm_table (y : Int) :
    daysBeforeMonth y 1 = 0 ∧ daysBeforeMonth y 2 = 31 ∧
    daysBeforeMonth y 3 = 59 + leapAdj y ∧ daysBeforeMonth y 4 = 90 + leapAdj y ∧
    daysBeforeMonth y 5 = 120 + leapAdj y ∧ daysBeforeMonth y 6 = 151 + leapAdj y ∧
    daysBeforeMonth y 7 = 181 + leapAdj y ∧ daysBeforeMonth y 8 = 212 + leapAdj y ∧
    daysBeforeMonth y 9 = 243 + leapAdj y ∧ daysBeforeMonth y 10 = 273 + leapAdj y ∧
    daysBeforeMonth y 11 = 304 + leapAdj y ∧ daysBeforeMonth y 12 = 334 + leapAdj y := by
  have hc := leapAdj_cases y
  unfold daysBeforeMonth
  norm_num
  omega

theorem dbm_add_dim {y m : Int} (h1 : 1 ≤ m) (h2 : m ≤ 12) :
    daysBeforeMonth y (m + 1) = daysBeforeMonth y m + daysInMonth y m := by
  have hc := leapAdj_cases y
  unfold daysBeforeMonth daysInMonth
  interval_cases m <;> norm_num <;> omega

theorem dbm_bounds {y m : Int} (h1 : 1 ≤ m) (h2 : m ≤ 12) :
    0 ≤ daysBeforeMonth y m ∧ daysBeforeMonth y m + daysInMonth y m ≤ daysInYear y := by
  have hc := leapAdj_cases y
  unfold daysBeforeMonth daysInMonth daysInYear
  interval_cases m <;> norm_num <;> omega

theorem dim_pos {y m : Int} : 1 ≤ daysInMonth y m := by
  have hc := leapAdj_cases y
  unfold daysInMonth
  split_ifs <;> omega

theorem yearStart_add_one (y : Int) : yearStart (y + 1) = yearStart y + daysInYear y := by
  have hc : (isLeap y = true ∧ leapAdj y = 1 ∧ ((y % 4 = 0 ∧ y % 100 ≠ 0) ∨ y % 400 = 0)) ∨
      (isLeap y = false ∧ leapAdj y = 0 ∧ ¬((y % 4 = 0 ∧ y % 100 ≠ 0) ∨ y % 400 = 0)) := by
    unfold leapAdj isLeap
    rcases Bool.eq_false_or_eq_true ((y % 4 == 0 && y % 100 != 0) || (y % 400 == 0)) with h | h <;>
      simp_all
  unfold yearStart daysInYear
  rcases hc with ⟨_, h2, h3⟩ | ⟨_, h2, h3⟩ <;> rw [h2] <;> omega

theorem daysInYear_pos (y : Int) : 365 ≤ daysInYear y := by
  have := leapAdj_cases y
  unfold daysInYear; omega

theorem yearStart_mono {a b : Int} (h : a < b) : yearStart a + 365 ≤ yearStart b := by
  have key : ∀ n : Int, a + 1 ≤ n → yearStart a + 365 ≤ yearStart n := by
    refine Int.le_induction ?_ ?_
    · rw [yearStart_add_one]
      have := daysInYear_pos a; omega
    · intro n _ ih
      rw [yearStart_add_one]
      have := daysInYear_pos n; omega
  exact key b (by omega)

theorem yday_bounds {t : Date} (h : t.ValidDate) :
    0 ≤ t.yday ∧ t.yday ≤ daysInYear t.y - 1 := by
  obtain ⟨h1, h2, h3, h4⟩ := h
  have hb := @dbm_bounds t.y t.m h1 h2
  unfold Date.yday
  omega

theorem toOrd_bounds {t : Date} (h : t.ValidDate) :
    yearStart t.y ≤ t.toOrd ∧ t.toOrd < yearStart (t.y + 1) := by
  have hb := yday_bounds h
  have hs := yearStart_add_one t.y
  unfold Date.toOrd
  omega

theorem toOrd_lt_of_year_lt {t₁ t₂ : Date} (h₁ : t₁.ValidDate) (h₂ : t₂.ValidDate)
    (hy : t₁.y < t₂.y) : t₁.toOrd < t₂.toOrd := by
  have b₁ := toOrd_bounds h₁
  have b₂ := toOrd_bounds h₂
  rcases lt_or_le (t₁.y + 1) t₂.y with h | h
  · have := yearStart_mono h; omega
  · have hy' : t₂.y = t₁.y + 1 := by omega
    rw [hy'] at b₂; omega

theorem year_le_of_toOrd_le {t₁ t₂ : Date} (h₁ : t₁.ValidDate) (h₂ : t₂.ValidDate)
    (ho : t₁.toOrd ≤ t₂.toOrd) : t₁.y ≤ t₂.y := by
  by_contra hc
  have := toOrd_lt_of_year_lt h₂ h₁ (by omega)
  omega

theorem toOrd_succDate {t : Date} (h : t.ValidDate) :
    (succDate t).ValidDate ∧ (succDate t).toOrd = t.toOrd + 1 := by
  obtain ⟨h1, h2, h3, h4⟩ := h
  unfold succDate
  split_ifs with hd hm
  · refine ⟨⟨h1, h2, by dsimp; omega, by dsimp; omega⟩, ?_⟩
    unfold Date.toOrd Date.yday; dsimp; omega
  · have hstep := @dbm_add_dim t.y t.m h1 h2
    have hdim := @dim_pos t.y (t.m + 1)
    refine ⟨⟨by dsimp; omega, by dsimp; omega, by dsimp; omega, by dsimp; omega⟩, ?_⟩
    unfold Date.toOrd Date.yday
    dsimp
    omega
  · have hm12 : t.m = 12 := by omega
    have htab := dbm_table t.y
    have htab' := dbm_table (t.y + 1)
    have hd31 : t.d = 31 := by
      rw [hm12] at h4 hd
      unfold daysInMonth at h4 hd
      norm_num at h4 hd
      omega
    have hys := yearStart_add_one t.y
    have hc := leapAdj_cases t.y
    refine ⟨⟨by dsimp; omega, by dsimp; omega, by dsimp; omega,
      by dsimp; unfold daysInMonth; split_ifs <;> omega⟩, ?_⟩
    unfold Date.toOrd Date.yday
    dsimp
    unfold daysInYear at hys
    rw [hm12]
    omega

theorem toOrd_predDate {t : Date} (h : t.ValidDate) :
    (predDate t).ValidDate ∧ (predDate t).toOrd = t.toOrd - 1 := by
  obtain ⟨h1, h2, h3, h4⟩ := h
  unfold predDate
  split_ifs with hd hm
  · refine ⟨⟨h1, h2, by dsimp; omega, by dsimp; omega⟩, ?_⟩
    unfold Date.toOrd Date.yday; dsimp; omega
  · have hstep := @dbm_add_dim t.y (t.m - 1) (by omega) (by omega)
    have hdim := @dim_pos t.y (t.m - 1)
    have hd1 : t.d = 1 := by omega
    refine ⟨⟨by dsimp; omega, by dsimp; omega, by dsimp; omega, by dsimp; omega⟩, ?_⟩
    unfold Date.toOrd Date.yday
    dsimp
    have heq : t.m - 1 + 1 = t.m := by omega
    rw [heq] at hstep
    omega
  · have hm1 : t.m = 1 := by omega
    have hd1 : t.d = 1 := by omega
    have htab := dbm_table t.y
    have htab' := dbm_table (t.y - 1)
    have hys : yearStart t.y = yearStart (t.y - 1) + daysInYear (t.y - 1) := by
      have h := yearStart_add_one (t.y - 1)
      rw [sub_add_cancel] at h
      omega
    have hc := leapAdj_cases (t.y - 1)
    refine ⟨⟨by dsimp; omega, by dsimp; omega, by dsimp; omega,
      by dsimp; unfold daysInMonth; split_ifs <;> omega⟩, ?_⟩
    unfold Date.toOrd Date.yday
    dsimp
    unfold daysInYear at hys
    rw [hm1]
    omega

/-! ### Parsing and formatting of `YYYYMMDD` date strings -/

/-- Numeric value of a decimal digit character. -/
def digitVal (c : Char) : Int := (c.toNat : Int) - 48

/-- The digit check Go's fixed-layout date parser applies per byte. -/
def isDigitCh (c : Char) : Bool := 48 ≤ c.toNat && c.toNat ≤ 57

/-- Model of `time.Parse("20060102", s)`: succeeds exactly on 8-digit
strings whose year/month/day components form a real calendar date
(Go's parser rejects out-of-range months and days). -/
def parseDate (s : GoStr) : Option Date :=
  match s with
  | [c1, c2, c3, c4, c5, c6, c7, c8] =>
    if isDigitCh c1 && isDigitCh c2 && isDigitCh c3 && isDigitCh c4 &&
       isDigitCh c5 && isDigitCh c6 && isDigitCh c7 && isDigitCh c8 then
      let t : Date := ⟨1000 * digitVal c1 + 100 * digitVal c2 + 10 * digitVal c3 + digitVal c4,
                       10 * digitVal c5 + digitVal c6,
                       10 * digitVal c7 + digitVal c8⟩
      if t.ValidDate then some t else none
    else none
  | _ => none

/-- Go's zero `time.Time` is January 1 of year 1; `time.Parse` returns it
(together with an error the call sites ignore) on failure. -/
def goZeroDate : Date := ⟨1, 1, 1⟩

/-- `time.Parse` as used at call sites that ignore the error. -/
def parseDateOrZero (s : GoStr) : Date := (parseDate s).getD goZeroDate

/-- Decimal digit character of `n mod 10`. -/
def digitChar (n : Int) : Char := Char.ofNat (48 + (n % 10).toNat)

/-- Two-digit zero-padded decimal rendering (months/days). -/
def pad2 (n : Int) : GoStr := [digitChar (n / 10), digitChar n]

/-- Four-digit zero-padded decimal rendering (years 0–9999, the only
years producible by `parseDate`). -/
def pad4 (n : Int) : GoStr := [digitChar (n / 1000), digitChar (n / 100), digitChar (n / 10), digitChar n]

/-- Model of `Format("20060102")`. -/
def formatDate (t : Date) : GoStr := pad4 t.y ++ pad2 t.m ++ pad2 t.d

/-- Model of `Format("200601")`. -/
def formatYearMonth (t : Date) : GoStr := pad4 t.y ++ pad2 t.m

theorem parseDate_valid {s : GoStr} {t : Date} (h : parseDate s = some t) : t.ValidDate := by
  unfold parseDate at h
  rcases s with _ | ⟨c1, _ | ⟨c2, _ | ⟨c3, _ | ⟨c4, _ | ⟨c5, _ | ⟨c6, _ | ⟨c7, _ | ⟨c8, _ | ⟨c9, r⟩⟩⟩⟩⟩⟩⟩⟩⟩ <;>
    simp_all [isDigitCh]
  obtain ⟨-, hv, rfl⟩ := h
  exact hv

theorem parseDate_year_range {s : GoStr} {t : Date} (h : parseDate s = some t) :
    0 ≤ t.y ∧ t.y ≤ 9999 := by
  unfold parseDate at h
  rcases s with _ | ⟨c1, _ | ⟨c2, _ | ⟨c3, _ | ⟨c4, _ | ⟨c5, _ | ⟨c6, _ | ⟨c7, _ | ⟨c8, _ | ⟨c9, r⟩⟩⟩⟩⟩⟩⟩⟩⟩ <;>
    simp_all [isDigitCh]
  obtain ⟨⟨⟨⟨⟨⟨⟨⟨d1a, d1b⟩, ⟨d2a, d2b⟩⟩, ⟨d3a, d3b⟩⟩, ⟨d4a, d4b⟩⟩, -⟩, -⟩, -⟩, -⟩ := h.1
  obtain ⟨-, rfl⟩ := h.2
  unfold digitVal
  dsimp
  omega

theorem goZeroDate_valid : goZeroDate.ValidDate := by decide

theorem parseDateOrZero_valid (s : GoStr) : (parseDateOrZero s).ValidDate := by
  unfold parseDateOrZero
  cases hp : parseDate s with
  | none => exact goZeroDate_valid
  | some t => exact parseDate_valid hp

/-! ### Day stepping and ISO weeks -/

theorem toOrd_iterate_succ {t : Date} (h : t.ValidDate) (n : Nat) :
    (succDate^[n] t).ValidDate ∧ (succDate^[n] t).toOrd = t.toOrd + n := by
  induction n generalizing t with
  | zero => exact ⟨h, by simp⟩
  | succ n ih =>
    rw [Function.iterate_succ_apply]
    obtain ⟨hv, ho⟩ := toOrd_succDate h
    obtain ⟨hv', ho'⟩ := ih hv
    refine ⟨hv', ?_⟩
    rw [ho', ho]
    push_cast
    ring

theorem toOrd_iterate_pred {t : Date} (h : t.ValidDate) (n : Nat) :
    (predDate^[n] t).ValidDate ∧ (predDate^[n] t).toOrd = t.toOrd - n := by
  induction n generalizing t with
  | zero => exact ⟨h, by simp⟩
  | succ n ih =>
    rw [Function.iterate_succ_apply]
    obtain ⟨hv, ho⟩ := toOrd_predDate h
    obtain ⟨hv', ho'⟩ := ih hv
    refine ⟨hv', ?_⟩
    rw [ho', ho]
    push_cast
    ring

/-- The day adjustment Go's `ISOWeek` applies to move to the Thursday of
the current ISO (Monday-based) week: `d := Thursday - weekday` with the
Sunday case mapped to `-3`. -/
def thursdayShift (t : Date) : Int :=
  if weekdayOfOrd t.toOrd = 0 then -3 else 4 - weekdayOfOrd t.toOrd

/-- The Thursday of `t`'s ISO week. -/
def thursdayOf (t : Date) : Date :=
  if 0 ≤ thursdayShift t then succDate^[(thursdayShift t).toNat] t
  else predDate^[(-thursdayShift t).toNat] t

/-- Model of Go's `Time.ISOWeek`: the pair (ISO year, ISO week number),
computed as the calendar year and `yday/7 + 1` of the week's Thursday. -/
def Date.isoWeek (t : Date) : Int × Int :=
  ((thursdayOf t).y, (thursdayOf t).yday / 7 + 1)

theorem weekdayOfOrd_range (o : Int) : 0 ≤ weekdayOfOrd o ∧ weekdayOfOrd o < 7 := by
  unfold weekdayOfOrd; omega

theorem thursdayOf_spec {t : Date} (h : t.ValidDate) :
    (thursdayOf t).ValidDate ∧ (thursdayOf t).toOrd = t.toOrd + thursdayShift t ∧
      weekdayOfOrd (thursdayOf t).toOrd = 4 := by
  have hr := weekdayOfOrd_range t.toOrd
  unfold thursdayOf
  split_ifs with hs
  · obtain ⟨hv, ho⟩ := toOrd_iterate_succ h (thursdayShift t).toNat
    have hcast : ((thursdayShift t).toNat : Int) = thursdayShift t := Int.toNat_of_nonneg hs
    rw [hcast] at ho
    refine ⟨hv, ho, ?_⟩
    rw [ho]
    unfold thursdayShift at *
    unfold weekdayOfOrd at *
    split_ifs at * <;> omega
  · obtain ⟨hv, ho⟩ := toOrd_iterate_pred h (-thursdayShift t).toNat
    have hcast : ((-thursdayShift t).toNat : Int) = -thursdayShift t := by
      unfold thursdayShift at *
      split_ifs at * <;> omega
    rw [hcast] at ho
    refine ⟨hv, by omega, ?_⟩
    rw [ho]
    unfold thursdayShift at *
    unfold weekdayOfOrd at *
    split_ifs at * <;> omega

theorem thursdayShift_mono {o₁ o₂ : Int} (h : o₁ ≤ o₂) :
    o₁ + (if (o₁ + 6) % 7 = 0 then (-3 : Int) else 4 - (o₁ + 6) % 7) ≤
      o₂ + (if (o₂ + 6) % 7 = 0 then (-3 : Int) else 4 - (o₂ + 6) % 7) := by
  split_ifs <;> omega

theorem thursdayOf_mono {t₁ t₂ : Date} (h₁ : t₁.ValidDate) (h₂ : t₂.ValidDate)
    (h : t₁.toOrd ≤ t₂.toOrd) : (thursdayOf t₁).toOrd ≤ (thursdayOf t₂).toOrd := by
  obtain ⟨_, ho₁, _⟩ := thursdayOf_spec h₁
  obtain ⟨_, ho₂, _⟩ := thursdayOf_spec h₂
  have := thursdayShift_mono h
  unfold thursdayShift weekdayOfOrd at *
  omega

/-- Lexicographic order on (ISO year, ISO week) pairs. -/
def pairLe (a b : Int × Int) : Prop := a.1 < b.1 ∨ (a.1 = b.1 ∧ a.2 ≤ b.2)

/-- Strict lexicographic order on (ISO year, ISO week) pairs. -/
def pairLt (a b : Int × Int) : Prop := a.1 < b.1 ∨ (a.1 = b.1 ∧ a.2 < b.2)

theorem pairLt_irrefl (a : Int × Int) : ¬ pairLt a a := by
  unfold pairLt; omega

theorem pairLt_of_le_ne {a b : Int × Int} (h : pairLe a b) (hne : a ≠ b) : pairLt a b := by
  unfold pairLe at h
  unfold pairLt
  rcases h with h | ⟨h1, h2⟩
  · exact Or.inl h
  · refine Or.inr ⟨h1, lt_of_le_of_ne h2 ?_⟩
    intro he
    exact hne (Prod.ext h1 he)

theorem pairLt_of_lt_of_le {a b c : Int × Int} (h₁ : pairLt a b) (h₂ : pairLe b c) :
    pairLt a c := by
  rcases a with ⟨a1, a2⟩; rcases b with ⟨b1, b2⟩; rcases c with ⟨c1, c2⟩
  simp only [pairLt, pairLe] at *
  omega

theorem isoWeek_le {t₁ t₂ : Date} (h₁ : t₁.ValidDate) (h₂ : t₂.ValidDate)
    (h : t₁.toOrd ≤ t₂.toOrd) : pairLe t₁.isoWeek t₂.isoWeek := by
  obtain ⟨hv₁, ho₁, hw₁⟩ := thursdayOf_spec h₁
  obtain ⟨hv₂, ho₂, hw₂⟩ := thursdayOf_spec h₂
  have hm := thursdayOf_mono h₁ h₂ h
  have hy := year_le_of_toOrd_le hv₁ hv₂ hm
  unfold Date.isoWeek pairLe
  rcases lt_or_eq_of_le hy with hlt | heq
  · left; exact hlt
  · right
    refine ⟨heq, ?_⟩
    have q₁ : (thursdayOf t₁).toOrd = yearStart (thursdayOf t₁).y + (thursdayOf t₁).yday := rfl
    have q₂ : (thursdayOf t₂).toOrd = yearStart (thursdayOf t₂).y + (thursdayOf t₂).yday := rfl
    rw [heq] at q₁
    omega

theorem isoWeek_lt {t₁ t₂ : Date} (h₁ : t₁.ValidDate) (h₂ : t₂.ValidDate)
    (h : t₁.toOrd ≤ t₂.toOrd) (hne : t₁.isoWeek ≠ t₂.isoWeek) :
    pairLt t₁.isoWeek t₂.isoWeek :=
  pairLt_of_le_ne (isoWeek_le h₁ h₂ h) hne

/-! ## Trading calendar resolver: weekly mode (`generateWeekDateRange`)

The source first obtains the trading-day strings (`getTradeDates`), parses
each (skipping unparseable entries), then walks the list keeping the last
trading day of each ISO (year, week) group, formatting each kept day.
`weekLoopDates` is the same loop keeping the `Date` values; the string
function is proved equal to its formatted image. -/

/-- The grouping loop of `generateWeekDateRange`, at the `Date` level:
walk `ds` with the current ISO week `(curY, curW)` and the last date seen
`lastD`; on a week change emit the previous week's last date. -/
def weekLoopDates (curY curW : Int) (lastD : Date) : List Date → List Date
  | [] => [lastD]
  | d :: rest =>
    if d.isoWeek.1 ≠ curY ∨ d.isoWeek.2 ≠ curW then
      lastD :: weekLoopDates d.isoWeek.1 d.isoWeek.2 d rest
    else
      weekLoopDates curY curW d rest

/-- The same loop emitting `Format("20060102")` strings, as in the source. -/
def weekLoopStr (curY curW : Int) (lastD : Date) : List Date → List GoStr
  | [] => [formatDate lastD]
  | d :: rest =>
    if d.isoWeek.1 ≠ curY ∨ d.isoWeek.2 ≠ curW then
      formatDate lastD :: weekLoopStr d.isoWeek.1 d.isoWeek.2 d rest
    else
      weekLoopStr curY curW d rest

/-- `generateWeekDateRange`, given the trading-day list returned by
`getTradeDates` (the remote call and its fallback are resolved by the
caller): parse the dates (skipping failures), group consecutive dates by
`ISOWeek`, and keep the last trading day of each week. -/
def generateWeekDateRange (allTradeDates : List GoStr) : List GoStr :=
  if allTradeDates.isEmpty then []
  else
    match allTradeDates.filterMap parseDate with
    | [] => []
    | d0 :: rest => weekLoopStr d0.isoWeek.1 d0.isoWeek.2 d0 (d0 :: rest)

theorem weekLoopStr_eq_map (curY curW : Int) (lastD : Date) (ds : List Date) :
    weekLoopStr curY curW lastD ds = (weekLoopDates curY curW lastD ds).map formatDate := by
  induction ds generalizing curY curW lastD with
  | nil => rfl
  | cons d rest ih =>
    unfold weekLoopStr weekLoopDates
    split_ifs <;> simp [ih]

/-- Loop invariant for `weekLoopDates`: with strictly ascending valid
input whose head continues the week of `lastD`'s group, the output picks
exactly the last date of each ISO week, in strictly increasing week
order. -/
theorem weekLoopDates_spec (lastD : Date) (ds : List Date)
    (hvl : lastD.ValidDate) (hv : ∀ d ∈ ds, d.ValidDate)
    (hsort : (lastD :: ds).Pairwise (fun a b => a.toOrd < b.toOrd)) :
    (∀ w ∈ weekLoopDates lastD.isoWeek.1 lastD.isoWeek.2 lastD ds, w ∈ lastD :: ds) ∧
    ((weekLoopDates lastD.isoWeek.1 lastD.isoWeek.2 lastD ds).map Date.isoWeek).Pairwise pairLt ∧
    (∀ d ∈ lastD :: ds, ∃ w ∈ weekLoopDates lastD.isoWeek.1 lastD.isoWeek.2 lastD ds,
      w.isoWeek = d.isoWeek) ∧
    (∀ w ∈ weekLoopDates lastD.isoWeek.1 lastD.isoWeek.2 lastD ds,
      ∀ d ∈ lastD :: ds, d.isoWeek = w.isoWeek → d.toOrd ≤ w.toOrd) := by
  induction ds generalizing lastD with
  | nil =>
    refine ⟨?_, ?_, ?_, ?_⟩ <;> simp [weekLoopDates]
  | cons d rest ih =>
    have hvd : d.ValidDate := hv d (by simp)
    have hvrest : ∀ x ∈ rest, x.ValidDate := fun x hx => hv x (by simp [hx])
    have hld : lastD.toOrd < d.toOrd := by
      have := List.rel_of_pairwise_cons hsort (show d ∈ d :: rest by simp)
      exact this
    have hlrest : ∀ x ∈ rest, lastD.toOrd < x.toOrd := by
      intro x hx
      exact List.rel_of_pairwise_cons hsort (by simp [hx])
    have hsort' : (d :: rest).Pairwise (fun a b => a.toOrd < b.toOrd) :=
      List.Pairwise.of_cons hsort
    have hdrest : ∀ x ∈ rest, d.toOrd < x.toOrd := fun x hx =>
      List.rel_of_pairwise_cons hsort' hx
    obtain ⟨ih1, ih2, ih3, ih4⟩ := ih d hvd hvrest hsort'
    unfold weekLoopDates
    split_ifs with hchg
    · -- week change: emit lastD, restart the loop at d
      have hKne : d.isoWeek ≠ lastD.isoWeek := by
        intro he
        rw [he] at hchg
        simp at hchg
      have hKlt : pairLt lastD.isoWeek d.isoWeek :=
        isoWeek_lt hvl hvd (le_of_lt hld) (fun he => hKne he.symm)
      refine ⟨?_, ?_, ?_, ?_⟩
      · intro w hw
        rcases List.mem_cons.mp hw with rfl | hw'
        · simp
        · have := ih1 w hw'
          simp only [List.mem_cons] at this ⊢
          tauto
      · rw [List.map_cons]
        refine List.pairwise_cons.mpr ⟨?_, ih2⟩
        intro p hp
        obtain ⟨w, hw, rfl⟩ := List.mem_map.mp hp
        have hwmem := ih1 w hw
        have hord : d.toOrd ≤ w.toOrd := by
          rcases List.mem_cons.mp hwmem with rfl | hw'
          · exact le_refl _
          · exact le_of_lt (hdrest w hw')
        have hvw : w.ValidDate := by
          rcases List.mem_cons.mp hwmem with rfl | hw'
          · exact hvd
          · exact hvrest w hw'
        exact pairLt_of_lt_of_le hKlt (isoWeek_le hvd hvw hord)
      · intro x hx
        rcases List.mem_cons.mp hx with rfl | hx'
        · exact ⟨x, by simp, rfl⟩
        · obtain ⟨w, hw, hwe⟩ := ih3 x hx'
          exact ⟨w, by simp [hw], hwe⟩
      · intro w hw x hx hxe
        rcases List.mem_cons.mp hw with heqw | hw'
        · -- w = lastD: nothing at or after d shares lastD's week
          subst heqw
          rcases List.mem_cons.mp hx with heqx | hx'
          · subst heqx; exact le_refl _
          · exfalso
            have hvx : x.ValidDate := hv x hx'
            have hordx : d.toOrd ≤ x.toOrd := by
              rcases List.mem_cons.mp hx' with heqx | hx''
              · subst heqx; exact le_refl _
              · exact le_of_lt (hdrest x hx'')
            have : pairLt w.isoWeek x.isoWeek :=
              pairLt_of_lt_of_le hKlt (isoWeek_le hvd hvx hordx)
            rw [hxe] at this
            exact pairLt_irrefl _ this
        · rcases List.mem_cons.mp hx with rfl | hx'
          · -- x = lastD but w is in the tail loop: lastD's week is strictly
            -- below w's, contradiction with equal weeks
            exfalso
            have hwmem := ih1 w hw'
            have hvw : w.ValidDate := by
              rcases List.mem_cons.mp hwmem with rfl | hw''
              · exact hvd
              · exact hvrest w hw''
            have hord : d.toOrd ≤ w.toOrd := by
              rcases List.mem_cons.mp hwmem with rfl | hw''
              · exact le_refl _
              · exact le_of_lt (hdrest w hw'')
            have : pairLt x.isoWeek w.isoWeek :=
              pairLt_of_lt_of_le hKlt (isoWeek_le hvd hvw hord)
            rw [hxe] at this
            exact pairLt_irrefl _ this
          · exact ih4 w hw' x hx' hxe
    · -- same week: K d = K lastD, loop continues with lastD := d
      have hKeq : d.isoWeek = lastD.isoWeek := by
        push_neg at hchg
        exact Prod.ext hchg.1 hchg.2
      rw [← hKeq]
      refine ⟨?_, ?_, ?_, ?_⟩
      · intro w hw
        have := ih1 w hw
        simp only [List.mem_cons] at this ⊢
        tauto
      · exact ih2
      · intro x hx
        rcases List.mem_cons.mp hx with rfl | hx'
        · obtain ⟨w, hw, hwe⟩ := ih3 d (by simp)
          exact ⟨w, hw, by rw [hwe, hKeq]⟩
        · obtain ⟨w, hw, hwe⟩ := ih3 x hx'
          exact ⟨w, hw, hwe⟩
      · intro w hw x hx hxe
        rcases List.mem_cons.mp hx with rfl | hx'
        · -- x = lastD: use d (same week) which the tail handles
          have := ih4 w hw d (by simp) (by rw [hKeq, hxe])
          omega
        · exact ih4 w hw x hx' hxe

/-- The `Date`-level value of `generateWeekDateRange` (the same loop before
formatting). -/
def weekPickDates (allTradeDates : List GoStr) : List Date :=
  if allTradeDates.isEmpty then []
  else
    match allTradeDates.filterMap parseDate with
    | [] => []
    | d0 :: rest => weekLoopDates d0.isoWeek.1 d0.isoWeek.2 d0 (d0 :: rest)

theorem generateWeekDateRange_eq_map (trades : List GoStr) :
    generateWeekDateRange trades = (weekPickDates trades).map formatDate := by
  unfold generateWeekDateRange weekPickDates
  split_ifs with h
  · rfl
  · cases hp : trades.filterMap parseDate with
    | nil => rfl
    | cons d0 rest => exact weekLoopStr_eq_map _ _ _ _

theorem weekLoopDates_self_head (d0 : Date) (rest : List Date) :
    weekLoopDates d0.isoWeek.1 d0.isoWeek.2 d0 (d0 :: rest) =
      weekLoopDates d0.isoWeek.1 d0.isoWeek.2 d0 rest := by
  conv_lhs => rw [weekLoopDates]
  simp

theorem mem_filterMap_parseDate_valid {trades : List GoStr} {d : Date}
    (h : d ∈ trades.filterMap parseDate) : d.ValidDate := by
  obtain ⟨s, _, hs⟩ := List.mem_filterMap.mp h
  exact parseDate_valid hs

/-- C5: for an ascending trading-day list, the weekly resolver keeps
exactly one date per ISO (year, week) pair present in the input, in week
order, and each kept date is the maximum trading date of its week. -/
theorem weekly_resolver_correct (trades : List GoStr)
    (hasc : (trades.filterMap parseDate).Pairwise (fun a b => a.toOrd < b.toOrd)) :
    generateWeekDateRange trades = (weekPickDates trades).map formatDate ∧
    ((weekPickDates trades).map Date.isoWeek).Pairwise pairLt ∧
    (∀ w ∈ weekPickDates trades, w ∈ trades.filterMap parseDate ∧
      ∀ d ∈ trades.filterMap parseDate, d.isoWeek = w.isoWeek → d.toOrd ≤ w.toOrd) ∧
    (∀ d ∈ trades.filterMap parseDate, ∃ w ∈ weekPickDates trades, w.isoWeek = d.isoWeek) := by
  refine ⟨generateWeekDateRange_eq_map trades, ?_⟩
  unfold weekPickDates
  split_ifs with hemp
  · have : trades = [] := List.isEmpty_iff.mp hemp
    subst this
    simp
  · cases hp : trades.filterMap parseDate with
    | nil => simp [hp]
    | cons d0 rest =>
      rw [hp] at hasc
      have hvd0 : d0.ValidDate :=
        mem_filterMap_parseDate_valid (by rw [hp]; simp)
      have hvrest : ∀ x ∈ rest, x.ValidDate := by
        intro x hx
        exact mem_filterMap_parseDate_valid (by rw [hp]; simp [hx])
      obtain ⟨s1, s2, s3, s4⟩ := weekLoopDates_spec d0 rest hvd0 hvrest hasc
      dsimp only
      rw [weekLoopDates_self_head]
      refine ⟨?_, ?_, ?_⟩
      · exact s2
      · intro w hw
        exact ⟨s1 w hw, fun d hd he => s4 w hw d hd he⟩
      · intro d hd
        exact s3 d hd

/-- Concrete input for the C5 witness: three trading days spanning ISO
weeks 48 and 49 of 2023. -/
def weeklyWitnessInput : List GoStr := ["20231201".data, "20231204".data, "20231208".data]

/-- Witness for C5 at a concrete ascending input: the hypothesis holds and
the resolver keeps 2023-12-01 (week 48) and 2023-12-08 (week 49). -/
theorem weekly_resolver_correct_witness :
    (weeklyWitnessInput.filterMap parseDate).Pairwise (fun a b => a.toOrd < b.toOrd) ∧
    (generateWeekDateRange weeklyWitnessInput = (weekPickDates weeklyWitnessInput).map formatDate ∧
     ((weekPickDates weeklyWitnessInput).map Date.isoWeek).Pairwise pairLt ∧
     (∀ w ∈ weekPickDates weeklyWitnessInput, w ∈ weeklyWitnessInput.filterMap parseDate ∧
       ∀ d ∈ weeklyWitnessInput.filterMap parseDate, d.isoWeek = w.isoWeek → d.toOrd ≤ w.toOrd) ∧
     (∀ d ∈ weeklyWitnessInput.filterMap parseDate,
       ∃ w ∈ weekPickDates weeklyWitnessInput, w.isoWeek = d.isoWeek)) ∧
    weekPickDates weeklyWitnessInput = [⟨2023, 12, 1⟩, ⟨2023, 12, 8⟩] :=
  ⟨by decide, weekly_resolver_correct weeklyWitnessInput (by decide), by decide⟩

/-! ## Fallback date generators

`generateDateRangeFallback` (and the textually identical
`generateWeekDateRangeFallback`) iterates day by day from the parsed start
to the parsed end (parse errors are ignored, leaving Go's zero time),
keeping non-weekend days.  `generateMonthEndDatesFallback` walks month by
month, emitting the month end capped at the range end and rolled back off
weekends.  The Go `for` loops run until the current date passes the end;
the embedding drives the same loop body with a fuel argument that counts
exactly the days (months) in the range, which is an upper bound on the
iterations the Go loop performs, so the computed lists agree. -/

/-- One `for` iteration bound of `generateDateRangeFallback`:
`for d := start; !d.After(end); d = d.AddDate(0, 0, 1)` keeping weekdays. -/
def dateRangeLoop (endD : Date) : Nat → Date → List Date
  | 0, _ => []
  | Nat.succ n, d =>
    if d.toOrd ≤ endD.toOrd then
      (if weekdayOfOrd d.toOrd ≠ 6 ∧ weekdayOfOrd d.toOrd ≠ 0 then [d] else []) ++
        dateRangeLoop endD n (succDate d)
    else []

/-- The dates visited and kept by `generateDateRangeFallback`. -/
def dateRangeFallbackDates (startDate endDate : GoStr) : List Date :=
  dateRangeLoop (parseDateOrZero endDate)
    ((parseDateOrZero endDate).toOrd + 1 - (parseDateOrZero startDate).toOrd).toNat
    (parseDateOrZero startDate)

/-- `generateDateRangeFallback` (= `generateWeekDateRangeFallback`):
the kept dates, formatted. -/
def generateDateRangeFallback (startDate endDate : GoStr) : List GoStr :=
  (dateRangeFallbackDates startDate endDate).map formatDate

/-- `current.AddDate(0, 1, 0)` for a first-of-month date (Go normalises
month 13 to January of the next year). -/
def nextMonthFirst (c : Date) : Date :=
  if c.m < 12 then ⟨c.y, c.m + 1, 1⟩ else ⟨c.y + 1, 1, 1⟩

/-- The capped month end of `generateMonthEndDatesFallback`: the month end
(`current.AddDate(0, 1, -1)`) of `cur`'s month, replaced by `endD` when it
overshoots the range end. -/
def monthEndCap (endD cur : Date) : Date :=
  if endD.toOrd < (⟨cur.y, cur.m, daysInMonth cur.y cur.m⟩ : Date).toOrd then endD
  else ⟨cur.y, cur.m, daysInMonth cur.y cur.m⟩

/-- The weekend rollback of `generateMonthEndDatesFallback`: a Saturday
moves back one day, a Sunday two days. -/
def monthEndAdjust (endD cur : Date) : Date :=
  if weekdayOfOrd (monthEndCap endD cur).toOrd = 6 then predDate (monthEndCap endD cur)
  else if weekdayOfOrd (monthEndCap endD cur).toOrd = 0 then
    predDate (predDate (monthEndCap endD cur))
  else monthEndCap endD cur

/-- The month-by-month `for` loop of `generateMonthEndDatesFallback`. -/
def monthEndFallbackLoop (startD endD : Date) : Nat → Date → List Date
  | 0, _ => []
  | Nat.succ n, cur =>
    if cur.toOrd ≤ endD.toOrd then
      (if ¬ ((monthEndAdjust endD cur).toOrd < startD.toOrd) then [monthEndAdjust endD cur]
       else []) ++
        monthEndFallbackLoop startD endD n (nextMonthFirst cur)
    else []

/-- The dates emitted by `generateMonthEndDatesFallback`. -/
def monthEndFallbackDates (startDate endDate : GoStr) : List Date :=
  monthEndFallbackLoop (parseDateOrZero startDate) (parseDateOrZero endDate)
    (12 * ((parseDateOrZero endDate).y - (parseDateOrZero startDate).y) +
      ((parseDateOrZero endDate).m - (parseDateOrZero startDate).m) + 1).toNat
    ⟨(parseDateOrZero startDate).y, (parseDateOrZero startDate).m, 1⟩

/-- `generateMonthEndDatesFallback`: the emitted dates, formatted. -/
def generateMonthEndDatesFallback (startDate endDate : GoStr) : List GoStr :=
  (monthEndFallbackDates startDate endDate).map formatDate

theorem dateRangeLoop_no_weekend (endD : Date) (n : Nat) :
    ∀ d, ∀ x ∈ dateRangeLoop endD n d,
      weekdayOfOrd x.toOrd ≠ 6 ∧ weekdayOfOrd x.toOrd ≠ 0 := by
  induction n with
  | zero => intro d x hx; simp [dateRangeLoop] at hx
  | succ n ih =>
    intro d x hx
    unfold dateRangeLoop at hx
    split_ifs at hx with h1 h2
    · rcases List.mem_append.mp hx with hx' | hx'
      · simp at hx'
        subst hx'
        exact h2
      · exact ih _ x hx'
    · simp at hx
      exact ih _ x hx
    · simp at hx

theorem dateRangeLoop_inverted (endD : Date) (n : Nat) (d : Date)
    (h : endD.toOrd < d.toOrd) : dateRangeLoop endD n d = [] := by
  cases n with
  | zero => rfl
  | succ n =>
    unfold dateRangeLoop
    rw [if_neg (by omega)]

theorem nextMonthFirst_month_range {c : Date} (h1 : 1 ≤ c.m) (h2 : c.m ≤ 12) :
    1 ≤ (nextMonthFirst c).m ∧ (nextMonthFirst c).m ≤ 12 := by
  unfold nextMonthFirst
  split_ifs <;> dsimp <;> omega

theorem monthEndCap_spec {endD cur : Date} (hve : endD.ValidDate)
    (h1 : 1 ≤ cur.m) (h2 : cur.m ≤ 12) :
    (monthEndCap endD cur).ValidDate ∧ (monthEndCap endD cur).toOrd ≤ endD.toOrd := by
  have hvme : (⟨cur.y, cur.m, daysInMonth cur.y cur.m⟩ : Date).ValidDate :=
    ⟨h1, h2, @dim_pos cur.y cur.m, le_refl _⟩
  unfold monthEndCap
  split_ifs with hcap
  · exact ⟨hve, le_refl _⟩
  · exact ⟨hvme, by omega⟩

theorem monthEndAdjust_spec {endD cur : Date} (hve : endD.ValidDate)
    (h1 : 1 ≤ cur.m) (h2 : cur.m ≤ 12) :
    weekdayOfOrd (monthEndAdjust endD cur).toOrd ≠ 6 ∧
    weekdayOfOrd (monthEndAdjust endD cur).toOrd ≠ 0 ∧
    (monthEndAdjust endD cur).toOrd ≤ endD.toOrd := by
  obtain ⟨hvc, hlc⟩ := monthEndCap_spec hve h1 h2
  unfold monthEndAdjust
  split_ifs with hsat hsun
  · obtain ⟨hv1, ho1⟩ := toOrd_predDate hvc
    unfold weekdayOfOrd at *
    omega
  · obtain ⟨hv1, ho1⟩ := toOrd_predDate hvc
    obtain ⟨hv2, ho2⟩ := toOrd_predDate hv1
    unfold weekdayOfOrd at *
    omega
  · unfold weekdayOfOrd at *
    omega

theorem monthEndFallbackLoop_no_weekend (startD endD : Date) (hve : endD.ValidDate) (n : Nat) :
    ∀ cur, 1 ≤ cur.m → cur.m ≤ 12 → ∀ x ∈ monthEndFallbackLoop startD endD n cur,
      weekdayOfOrd x.toOrd ≠ 6 ∧ weekdayOfOrd x.toOrd ≠ 0 := by
  induction n with
  | zero => intro cur _ _ x hx; simp [monthEndFallbackLoop] at hx
  | succ n ih =>
    intro cur hm1 hm2 x hx
    have hnext := nextMonthFirst_month_range hm1 hm2
    unfold monthEndFallbackLoop at hx
    by_cases hc : cur.toOrd ≤ endD.toOrd
    · rw [if_pos hc] at hx
      rcases List.mem_append.mp hx with hx' | hx'
      · split_ifs at hx' with hemit
        · simp at hx'
        · simp at hx'
          subst hx'
          obtain ⟨w1, w2, -⟩ := monthEndAdjust_spec hve hm1 hm2
          exact ⟨w1, w2⟩
      · exact ih _ hnext.1 hnext.2 x hx'
    · rw [if_neg hc] at hx
      simp at hx

theorem monthEndFallbackLoop_inverted (startD endD : Date) (hve : endD.ValidDate)
    (hinv : endD.toOrd < startD.toOrd) (n : Nat) :
    ∀ cur, 1 ≤ cur.m → cur.m ≤ 12 → monthEndFallbackLoop startD endD n cur = [] := by
  induction n with
  | zero => intro cur _ _; rfl
  | succ n ih =>
    intro cur hm1 hm2
    have hnext := nextMonthFirst_month_range hm1 hm2
    unfold monthEndFallbackLoop
    by_cases hc : cur.toOrd ≤ endD.toOrd
    · rw [if_pos hc]
      have hle := (monthEndAdjust_spec hve hm1 hm2).2.2
      rw [if_neg (by omega)]
      simp only [List.nil_append]
      exact ih _ hnext.1 hnext.2
    · rw [if_neg hc]

/-- C8: the fallback date generators never emit a Saturday or a Sunday,
and on an inverted range (parsed start strictly after parsed end) they
return the empty list; they are total functions of their string inputs
(parse failures fall back to Go's zero time rather than failing). -/
theorem fallback_generators_safe (startDate endDate : GoStr) :
    (∀ d ∈ dateRangeFallbackDates startDate endDate,
      weekdayOfOrd d.toOrd ≠ 6 ∧ weekdayOfOrd d.toOrd ≠ 0) ∧
    (∀ d ∈ monthEndFallbackDates startDate endDate,
      weekdayOfOrd d.toOrd ≠ 6 ∧ weekdayOfOrd d.toOrd ≠ 0) ∧
    ((parseDateOrZero endDate).toOrd < (parseDateOrZero startDate).toOrd →
      dateRangeFallbackDates startDate endDate = [] ∧
      monthEndFallbackDates startDate endDate = []) ∧
    generateDateRangeFallback startDate endDate =
      (dateRangeFallbackDates startDate endDate).map formatDate ∧
    generateMonthEndDatesFallback startDate endDate =
      (monthEndFallbackDates startDate endDate).map formatDate := by
  have hvs := parseDateOrZero_valid startDate
  have hve := parseDateOrZero_valid endDate
  refine ⟨?_, ?_, ?_, rfl, rfl⟩
  · intro d hd
    unfold dateRangeFallbackDates at hd
    exact dateRangeLoop_no_weekend _ _ _ d hd
  · intro d hd
    unfold monthEndFallbackDates at hd
    exact monthEndFallbackLoop_no_weekend _ _ hve _
      ⟨(parseDateOrZero startDate).y, (parseDateOrZero startDate).m, 1⟩ hvs.1 hvs.2.1 d hd
  · intro hinv
    constructor
    · unfold dateRangeFallbackDates
      exact dateRangeLoop_inverted _ _ _ hinv
    · unfold monthEndFallbackDates
      exact monthEndFallbackLoop_inverted _ _ hve hinv _
        ⟨(parseDateOrZero startDate).y, (parseDateOrZero startDate).m, 1⟩ hvs.1 hvs.2.1

/-- Witness for C8: on the inverted concrete range 2023-12-15 → 2023-12-10
both fallback generators return the empty list, and on the proper range
2023-12-01 → 2023-12-05 the day generator keeps exactly the weekdays
(Fri 1st, Mon 4th, Tue 5th). -/
theorem fallback_generators_safe_witness :
    ((parseDateOrZero ("20231210".data)).toOrd < (parseDateOrZero ("20231215".data)).toOrd) ∧
    (dateRangeFallbackDates ("20231215".data) ("20231210".data) = [] ∧
     monthEndFallbackDates ("20231215".data) ("20231210".data) = []) ∧
    dateRangeFallbackDates ("20231201".data) ("20231205".data) =
      [⟨2023, 12, 1⟩, ⟨2023, 12, 4⟩, ⟨2023, 12, 5⟩] :=
  ⟨by decide,
   (fallback_generators_safe ("20231215".data) ("20231210".data)).2.2.1 (by decide),
   by decide⟩

/-! ## Trading calendar resolver: daily mode (`getTradeDates`)

The remote calendar response is a list of `TradeCal` rows; `getTradeDates`
keeps the rows with `IsOpen == 1`, collects their `CalDate` strings and
sorts them ascending (`sort.Strings`, modelled by an insertion sort over
the byte-lexicographic order, which computes the same sorted list). -/

/-- A `trade_cal` row as decoded by the remote client. -/
structure TradeCal where
  exchange : GoStr
  calDate : GoStr
  isOpen : Int
  preTradeDate : GoStr
deriving DecidableEq, Repr

/-- The `CalDate`s of the open-day rows of a calendar response. -/
def openCalDates (tradeCals : List TradeCal) : List GoStr :=
  (tradeCals.filter (fun c => c.isOpen == 1)).map (fun c => c.calDate)

/-- `getTradeDates`, given the decoded `trade_cal` rows: keep open days,
sort ascending. -/
def getTradeDates (calData : List TradeCal) : List GoStr :=
  List.insertionSort (· ≤ ·) (openCalDates calData)

/-- C7: when the remote calendar honours its contract (distinct open-day
dates, all within `[startDate, endDate]` — on 8-digit `YYYYMMDD` strings
the byte order used here is date order), the daily resolver returns a
strictly ascending, duplicate-free list bounded within the range. -/
theorem daily_resolver_sorted (startDate endDate : GoStr) (calData : List TradeCal)
    (hne : startDate ≤ endDate)
    (hdistinct : (openCalDates calData).Nodup)
    (hrange : ∀ d ∈ openCalDates calData, startDate ≤ d ∧ d ≤ endDate) :
    (getTradeDates calData).Pairwise (· < ·) ∧
    ∀ d ∈ getTradeDates calData, startDate ≤ d ∧ d ≤ endDate := by
  have hperm := @List.perm_insertionSort GoStr (· ≤ ·) _ (openCalDates calData)
  constructor
  · have hsorted : (getTradeDates calData).Sorted (· ≤ ·) :=
      List.sorted_insertionSort (· ≤ ·) (openCalDates calData)
    have hnd : (getTradeDates calData).Nodup := hperm.symm.nodup hdistinct
    exact List.Sorted.lt_of_le hsorted hnd
  · intro d hd
    exact hrange d (hperm.mem_iff.mp hd)

/-- Concrete calendar rows for the C7 witness: two open days and one
closed day inside [20231201, 20231231], returned out of order. -/
def dailyWitnessCals : List TradeCal :=
  [⟨"SSE".data, "20231204".data, 1, "20231201".data⟩,
   ⟨"SSE".data, "20231203".data, 0, "20231201".data⟩,
   ⟨"SSE".data, "20231201".data, 1, "20231130".data⟩]

/-- Witness for C7: the hypotheses hold at the concrete response and the
resolver output is the sorted open-day list [20231201, 20231204]. -/
theorem daily_resolver_sorted_witness :
    (("20231201".data : GoStr) ≤ "20231231".data ∧
     (openCalDates dailyWitnessCals).Nodup ∧
     (∀ d ∈ openCalDates dailyWitnessCals,
        ("20231201".data : GoStr) ≤ d ∧ d ≤ "20231231".data)) ∧
    ((getTradeDates dailyWitnessCals).Pairwise (· < ·) ∧
     ∀ d ∈ getTradeDates dailyWitnessCals,
       ("20231201".data : GoStr) ≤ d ∧ d ≤ "20231231".data) ∧
    getTradeDates dailyWitnessCals = ["20231201".data, "20231204".data] :=
  ⟨⟨by decide, by decide, by decide⟩,
   daily_resolver_sorted ("20231201".data) ("20231231".data) dailyWitnessCals
     (by decide) (by decide) (by decide),
   by decide⟩

/-! ## Trading calendar resolver: monthly mode (`generateMonthEndDates`)

On the authoritative path the source groups open calendar rows by the
`YYYYMM` prefix of their date string (rows shorter than 6 bytes are
skipped), keeping the string-maximal date per month in a map, then walks
the months of `[start, end]` looking each month key up. -/

/-- One row's effect on `monthlyLastTrade` (the Go map update
`if existing, ok := m[ym]; !ok || cal.CalDate > existing`). -/
def monthMapStep (mp : GoStr → Option GoStr) (cal : TradeCal) : GoStr → Option GoStr :=
  if cal.isOpen = 1 ∧ 6 ≤ cal.calDate.length then
    match mp (cal.calDate.take 6) with
    | none => fun k => if k = cal.calDate.take 6 then some cal.calDate else mp k
    | some existing =>
      if existing < cal.calDate then
        fun k => if k = cal.calDate.take 6 then some cal.calDate else mp k
      else mp
  else mp

/-- The `monthlyLastTrade` map: last (string-maximal) open trading date
per `YYYYMM` key. -/
def monthlyLastTradeMap (tradeCals : List TradeCal) : GoStr → Option GoStr :=
  tradeCals.foldl monthMapStep (fun _ => none)

/-- The month-by-month lookup loop of `generateMonthEndDates`. -/
def monthEndListLoop (mp : GoStr → Option GoStr) (endD : Date) : Nat → Date → List GoStr
  | 0, _ => []
  | Nat.succ n, cur =>
    if cur.toOrd ≤ endD.toOrd then
      (mp (formatYearMonth cur)).toList ++ monthEndListLoop mp endD n (nextMonthFirst cur)
    else []

/-- `generateMonthEndDates` for a successfully fetched calendar: empty
responses degrade to the weekend-filter fallback, otherwise the per-month
maxima of the open rows are emitted in month order. -/
def generateMonthEndDates (startDate endDate : GoStr) (tradeCals : List TradeCal) : List GoStr :=
  if tradeCals.isEmpty then generateMonthEndDatesFallback startDate endDate
  else
    monthEndListLoop (monthlyLastTradeMap tradeCals) (parseDateOrZero endDate)
      (12 * ((parseDateOrZero endDate).y - (parseDateOrZero startDate).y) +
        ((parseDateOrZero endDate).m - (parseDateOrZero startDate).m) + 1).toNat
      ⟨(parseDateOrZero startDate).y, (parseDateOrZero startDate).m, 1⟩

theorem openCalDates_append (cals : List TradeCal) (c : TradeCal) :
    openCalDates (cals ++ [c]) =
      openCalDates cals ++ (if c.isOpen = 1 then [c.calDate] else []) := by
  unfold openCalDates
  rw [List.filter_append, List.map_append]
  congr 1
  split_ifs with h <;> simp [h]

theorem monthlyLastTradeMap_spec (tradeCals : List TradeCal) :
    (∀ ym v, monthlyLastTradeMap tradeCals ym = some v →
      v ∈ openCalDates tradeCals ∧ v.take 6 = ym ∧ 6 ≤ v.length ∧
      ∀ d ∈ openCalDates tradeCals, d.take 6 = ym → d ≤ v) ∧
    (∀ ym, ym.length = 6 → monthlyLastTradeMap tradeCals ym = none →
      ∀ d ∈ openCalDates tradeCals, d.take 6 ≠ ym) := by
  induction tradeCals using List.reverseRecOn with
  | nil =>
    constructor
    · intro ym v h
      simp [monthlyLastTradeMap] at h
    · intro ym _ _ d hd
      simp [openCalDates] at hd
  | append_singleton cals c ih =>
    obtain ⟨ihs, ihn⟩ := ih
    have hfold : monthlyLastTradeMap (cals ++ [c]) =
        monthMapStep (monthlyLastTradeMap cals) c := by
      unfold monthlyLastTradeMap
      rw [List.foldl_append]
      rfl
    have hoc := openCalDates_append cals c
    constructor
    · intro ym v h
      rw [hfold] at h
      unfold monthMapStep at h
      split_ifs at h with hcond
      · -- open row with a usable (≥ 6 byte) date
        have hlen6 : (c.calDate.take 6).length = 6 := by
          rw [List.length_take]
          omega
        by_cases hkey : ym = c.calDate.take 6
        · subst hkey
          cases hmp : monthlyLastTradeMap cals (c.calDate.take 6) with
          | none =>
            rw [hmp] at h
            try dsimp only at h
            rw [if_pos rfl] at h
            injection h with hv
            subst hv
            refine ⟨by rw [hoc]; simp [hcond.1], rfl, hcond.2, ?_⟩
            intro d hd hdp
            rw [hoc] at hd
            rcases List.mem_append.mp hd with hd' | hd'
            · exact absurd hdp (ihn _ hlen6 hmp d hd')
            · rw [if_pos hcond.1] at hd'
              simp at hd'
              subst hd'
              exact le_refl _
          | some existing =>
            rw [hmp] at h
            try dsimp only at h
            by_cases hgt : existing < c.calDate
            · rw [if_pos hgt] at h
              try dsimp only at h
              rw [if_pos rfl] at h
              injection h with hv
              subst hv
              obtain ⟨m1, m2, m3, m4⟩ := ihs _ existing hmp
              refine ⟨by rw [hoc]; simp [hcond.1], rfl, hcond.2, ?_⟩
              intro d hd hdp
              rw [hoc] at hd
              rcases List.mem_append.mp hd with hd' | hd'
              · exact (m4 d hd' hdp).trans hgt.le
              · rw [if_pos hcond.1] at hd'
                simp at hd'
                subst hd'
                exact le_refl _
            · rw [if_neg hgt] at h
              rw [hmp] at h
              injection h with hv
              subst hv
              obtain ⟨m1, m2, m3, m4⟩ := ihs _ existing hmp
              refine ⟨by rw [hoc]; exact List.mem_append_left _ m1, m2, m3, ?_⟩
              intro d hd hdp
              rw [hoc] at hd
              rcases List.mem_append.mp hd with hd' | hd'
              · exact m4 d hd' hdp
              · rw [if_pos hcond.1] at hd'
                simp at hd'
                subst hd'
                exact le_of_not_lt hgt
        · -- queried at a different month key: the old map answers
          have hold : monthlyLastTradeMap cals ym = some v := by
            cases hmp : monthlyLastTradeMap cals (c.calDate.take 6) with
            | none =>
              rw [hmp] at h
              try dsimp only at h
              rw [if_neg hkey] at h
              exact h
            | some existing =>
              rw [hmp] at h
              try dsimp only at h
              by_cases hgt : existing < c.calDate
              · rw [if_pos hgt] at h
                try dsimp only at h
                rw [if_neg hkey] at h
                exact h
              · rw [if_neg hgt] at h
                exact h
          obtain ⟨m1, m2, m3, m4⟩ := ihs ym v hold
          refine ⟨by rw [hoc]; exact List.mem_append_left _ m1, m2, m3, ?_⟩
          intro d hd hdp
          rw [hoc] at hd
          rcases List.mem_append.mp hd with hd' | hd'
          · exact m4 d hd' hdp
          · rw [if_pos hcond.1] at hd'
            simp at hd'
            subst hd'
            exact absurd hdp.symm hkey
      · -- closed or short row: the map is unchanged, and such a row can
        -- never share a 6-byte month key
        obtain ⟨m1, m2, m3, m4⟩ := ihs ym v h
        refine ⟨by rw [hoc]; exact List.mem_append_left _ m1, m2, m3, ?_⟩
        intro d hd hdp
        rw [hoc] at hd
        rcases List.mem_append.mp hd with hd' | hd'
        · exact m4 d hd' hdp
        · split_ifs at hd' with hop
          · simp at hd'
            subst hd'
            exfalso
            have hshort : c.calDate.length < 6 := by
              rcases not_and_or.mp hcond with hno | hno
              · exact absurd hop hno
              · omega
            have hlen : (c.calDate.take 6).length = c.calDate.length := by
              rw [List.length_take]
              omega
            have hym6 : ym.length = 6 := by
              rw [← m2, List.length_take]
              omega
            rw [hdp] at hlen
            omega
          · simp at hd'
    · intro ym hym6 h d hd
      rw [hfold] at h
      rw [hoc] at hd
      unfold monthMapStep at h
      rcases List.mem_append.mp hd with hd' | hd'
      · -- a row of the prefix: in every case the old map at ym is none
        have hold : monthlyLastTradeMap cals ym = none := by
          split_ifs at h with hcond
          · cases hmp : monthlyLastTradeMap cals (c.calDate.take 6) with
            | none =>
              rw [hmp] at h
              try dsimp only at h
              by_cases hkey : ym = c.calDate.take 6
              · rw [if_pos hkey] at h
                cases h
              · rw [if_neg hkey] at h
                exact h
            | some existing =>
              rw [hmp] at h
              try dsimp only at h
              by_cases hgt : existing < c.calDate
              · rw [if_pos hgt] at h
                try dsimp only at h
                by_cases hkey : ym = c.calDate.take 6
                · rw [if_pos hkey] at h
                  cases h
                · rw [if_neg hkey] at h
                  exact h
              · rw [if_neg hgt] at h
                exact h
          · exact h
        exact ihn ym hym6 hold d hd'
      · -- the new row itself
        split_ifs at hd' with hop
        · simp at hd'
          subst hd'
          intro hdp
          rcases le_or_lt 6 c.calDate.length with hlen | hlen
          · -- a usable row leaves its own key mapped, contradiction
            rw [if_pos ⟨hop, hlen⟩] at h
            rw [hdp] at h
            cases hmp : monthlyLastTradeMap cals (c.calDate.take 6) with
            | none =>
              rw [hdp] at hmp
              rw [hmp] at h
              try dsimp only at h
              rw [if_pos rfl] at h
              cases h
            | some existing =>
              rw [hdp] at hmp
              rw [hmp] at h
              try dsimp only at h
              by_cases hgt : existing < c.calDate
              · rw [if_pos hgt] at h
                try dsimp only at h
                rw [if_pos rfl] at h
                cases h
              · rw [if_neg hgt] at h
                rw [hmp] at h
                cases h
          · -- a short row has a short key, which cannot be `ym`
            have hlen6 : (c.calDate.take 6).length = c.calDate.length := by
              rw [List.length_take]
              omega
            rw [hdp] at hlen6
            omega
        · simp at hd'

/-- Linearised month counter, used to compare iterated months. -/
def monthIndex (c : Date) : Int := 12 * c.y + c.m

theorem nextMonthFirst_d (c : Date) : (nextMonthFirst c).d = 1 := by
  unfold nextMonthFirst
  split_ifs <;> rfl

theorem nextMonthFirst_y (c : Date) : c.y ≤ (nextMonthFirst c).y := by
  unfold nextMonthFirst
  split_ifs <;> dsimp <;> omega

theorem monthIndex_next {c : Date} (h : c.m ≤ 12) :
    monthIndex (nextMonthFirst c) = monthIndex c + 1 := by
  unfold nextMonthFirst monthIndex
  split_ifs <;> dsimp <;> omega

theorem charOfNat_digit_inj (a b : Nat) (ha : a < 10) (hb : b < 10)
    (h : Char.ofNat (48 + a) = Char.ofNat (48 + b)) : a = b := by
  interval_cases a <;> interval_cases b <;> revert h <;> decide

theorem digitChar_congr {x y : Int} (h : digitChar x = digitChar y) : x % 10 = y % 10 := by
  unfold digitChar at h
  have hx1 : 0 ≤ x % 10 := Int.emod_nonneg x (by norm_num)
  have hx2 : x % 10 < 10 := Int.emod_lt_of_pos x (by norm_num)
  have hy1 : 0 ≤ y % 10 := Int.emod_nonneg y (by norm_num)
  have hy2 : y % 10 < 10 := Int.emod_lt_of_pos y (by norm_num)
  have := charOfNat_digit_inj (x % 10).toNat (y % 10).toNat (by omega) (by omega) h
  omega

theorem formatYearMonth_inj {a b : Date}
    (hay1 : 0 ≤ a.y) (hay2 : a.y ≤ 9999) (ham1 : 1 ≤ a.m) (ham2 : a.m ≤ 12)
    (hby1 : 0 ≤ b.y) (hby2 : b.y ≤ 9999) (hbm1 : 1 ≤ b.m) (hbm2 : b.m ≤ 12)
    (h : formatYearMonth a = formatYearMonth b) : a.y = b.y ∧ a.m = b.m := by
  unfold formatYearMonth pad4 pad2 at h
  simp only [List.cons_append, List.nil_append, List.cons.injEq, and_true] at h
  obtain ⟨e1, e2, e3, e4, e5, e6⟩ := h
  have d1 := digitChar_congr e1
  have d2 := digitChar_congr e2
  have d3 := digitChar_congr e3
  have d4 := digitChar_congr e4
  have d5 := digitChar_congr e5
  have d6 := digitChar_congr e6
  constructor <;> omega

theorem parseDateOrZero_year_range (s : GoStr) :
    0 ≤ (parseDateOrZero s).y ∧ (parseDateOrZero s).y ≤ 9999 := by
  unfold parseDateOrZero
  cases hp : parseDate s with
  | none => exact ⟨by norm_num [goZeroDate], by norm_num [goZeroDate]⟩
  | some t => exact parseDate_year_range hp

theorem monthEndListLoop_mem (mp : GoStr → Option GoStr) (endD : Date)
    (hve : endD.ValidDate) (n : Nat) :
    ∀ cur, 1 ≤ cur.m → cur.m ≤ 12 → cur.d = 1 →
      ∀ x ∈ monthEndListLoop mp endD n cur,
        ∃ c : Date, c.d = 1 ∧ 1 ≤ c.m ∧ c.m ≤ 12 ∧ cur.y ≤ c.y ∧ c.y ≤ endD.y ∧
          monthIndex cur ≤ monthIndex c ∧ mp (formatYearMonth c) = some x := by
  induction n with
  | zero => intro cur _ _ _ x hx; simp [monthEndListLoop] at hx
  | succ n ih =>
    intro cur hm1 hm2 hd x hx
    unfold monthEndListLoop at hx
    by_cases hc : cur.toOrd ≤ endD.toOrd
    · rw [if_pos hc] at hx
      rcases List.mem_append.mp hx with hx' | hx'
      · cases hmp : mp (formatYearMonth cur) with
        | none => rw [hmp] at hx'; simp at hx'
        | some v =>
          rw [hmp] at hx'
          simp at hx'
          subst hx'
          have hvc : cur.ValidDate :=
            ⟨hm1, hm2, by omega, by have := @dim_pos cur.y cur.m; omega⟩
          exact ⟨cur, hd, hm1, hm2, le_refl _, year_le_of_toOrd_le hvc hve hc,
            le_refl _, hmp⟩
      · have hr := nextMonthFirst_month_range hm1 hm2
        obtain ⟨c, p1, p2, p3, p4, p5, p6, p7⟩ :=
          ih (nextMonthFirst cur) hr.1 hr.2 (nextMonthFirst_d cur) x hx'
        have hy := nextMonthFirst_y cur
        have hmi := monthIndex_next hm2
        exact ⟨c, p1, p2, p3, by omega, p5, by omega, p7⟩
    · rw [if_neg hc] at hx
      simp at hx

theorem monthEndListLoop_prefix_nodup (mp : GoStr → Option GoStr) (endD : Date)
    (hve : endD.ValidDate) (hy9999 : endD.y ≤ 9999)
    (hpfx : ∀ ym v, mp ym = some v → v.take 6 = ym) (n : Nat) :
    ∀ cur, 1 ≤ cur.m → cur.m ≤ 12 → cur.d = 1 → 0 ≤ cur.y →
      ((monthEndListLoop mp endD n cur).map (fun d => d.take 6)).Nodup := by
  induction n with
  | zero => intro cur _ _ _ _; simp [monthEndListLoop]
  | succ n ih =>
    intro cur hm1 hm2 hd hy0
    unfold monthEndListLoop
    by_cases hc : cur.toOrd ≤ endD.toOrd
    · rw [if_pos hc]
      have hr := nextMonthFirst_month_range hm1 hm2
      have hynext : (0 : Int) ≤ (nextMonthFirst cur).y := le_trans hy0 (nextMonthFirst_y cur)
      rw [List.map_append, List.nodup_append]
      refine ⟨?_, ih _ hr.1 hr.2 (nextMonthFirst_d cur) hynext, ?_⟩
      · cases hmp : mp (formatYearMonth cur) <;> simp
      · -- the head's month key does not recur in the tail
        intro p hp hq
        obtain ⟨v, hv, rfl⟩ := List.mem_map.mp hp
        obtain ⟨x, hxmem, hxeq⟩ := List.mem_map.mp hq
        cases hmp : mp (formatYearMonth cur) with
        | none => rw [hmp] at hv; simp at hv
        | some w =>
          rw [hmp] at hv
          simp at hv
          subst hv
          obtain ⟨c, p1, p2, p3, p4, p5, p6, p7⟩ :=
            monthEndListLoop_mem mp endD hve n (nextMonthFirst cur) hr.1 hr.2
              (nextMonthFirst_d cur) x hxmem
          have hmi := monthIndex_next hm2
          have hvw := hpfx _ _ hmp
          have hvx := hpfx _ _ p7
          rw [hvw] at hxeq
          rw [hvx] at hxeq
          have hvc : cur.ValidDate :=
            ⟨hm1, hm2, by omega, by have := @dim_pos cur.y cur.m; omega⟩
          have hycur : cur.y ≤ endD.y := year_le_of_toOrd_le hvc hve hc
          have hcy0 : (0 : Int) ≤ c.y := by
            have := nextMonthFirst_y cur
            omega
          obtain ⟨hy, hm⟩ := formatYearMonth_inj hcy0 (by omega) p2 p3
            hy0 (by omega) hm1 hm2 hxeq
          unfold monthIndex at p6 hmi
          omega
    · rw [if_neg hc]
      simp

/-- C6: on the authoritative path (a non-empty calendar response) the
monthly resolver emits at most one date per `YYYYMM` calendar month (the
month prefixes of its output are pairwise distinct), and every emitted
date is an open trading date that is string-maximal (= latest, on
`YYYYMMDD` data) among the open dates of its month; a month with no open
trading date contributes nothing, since every output belongs to
`openCalDates`. -/
theorem monthly_resolver_correct (startDate endDate : GoStr) (tradeCals : List TradeCal)
    (hne : tradeCals.isEmpty = false) :
    ((generateMonthEndDates startDate endDate tradeCals).map (fun d => d.take 6)).Nodup ∧
    ∀ d ∈ generateMonthEndDates startDate endDate tradeCals,
      d ∈ openCalDates tradeCals ∧
      ∀ d' ∈ openCalDates tradeCals, d'.take 6 = d.take 6 → d' ≤ d := by
  obtain ⟨hspec, -⟩ := monthlyLastTradeMap_spec tradeCals
  have hvs := parseDateOrZero_valid startDate
  have hve := parseDateOrZero_valid endDate
  have hys := parseDateOrZero_year_range startDate
  have hye := parseDateOrZero_year_range endDate
  unfold generateMonthEndDates
  rw [if_neg (by rw [hne]; exact Bool.false_ne_true)]
  constructor
  · exact monthEndListLoop_prefix_nodup _ _ hve hye.2
      (fun ym v h => (hspec ym v h).2.1) _
      ⟨(parseDateOrZero startDate).y, (parseDateOrZero startDate).m, 1⟩
      hvs.1 hvs.2.1 rfl hys.1
  · intro d hd
    obtain ⟨c, p1, p2, p3, p4, p5, p6, p7⟩ :=
      monthEndListLoop_mem _ _ hve _
        ⟨(parseDateOrZero startDate).y, (parseDateOrZero startDate).m, 1⟩
        hvs.1 hvs.2.1 rfl d hd
    obtain ⟨m1, m2, m3, m4⟩ := hspec _ d p7
    refine ⟨m1, ?_⟩
    intro d' hd' hdp
    exact m4 d' hd' (by rw [hdp, m2])

/-- Concrete calendar rows for the C6 witness: November and December 2023
each with two open days, plus a closed day. -/
def monthlyWitnessCals : List TradeCal :=
  [⟨"SSE".data, "20231129".data, 1, "20231128".data⟩,
   ⟨"SSE".data, "20231130".data, 1, "20231129".data⟩,
   ⟨"SSE".data, "20231203".data, 0, "20231201".data⟩,
   ⟨"SSE".data, "20231228".data, 1, "20231227".data⟩,
   ⟨"SSE".data, "20231229".data, 1, "20231228".data⟩]

/-- Witness for C6 at a concrete range and response: the resolver emits
the last open day of each month, [20231130, 20231229]. -/
theorem monthly_resolver_correct_witness :
    (monthlyWitnessCals.isEmpty = false) ∧
    (((generateMonthEndDates ("20231101".data) ("20231231".data) monthlyWitnessCals).map
        (fun d => d.take 6)).Nodup ∧
     ∀ d ∈ generateMonthEndDates ("20231101".data) ("20231231".data) monthlyWitnessCals,
       d ∈ openCalDates monthlyWitnessCals ∧
       ∀ d' ∈ openCalDates monthlyWitnessCals, d'.take 6 = d.take 6 → d' ≤ d) ∧
    generateMonthEndDates ("20231101".data) ("20231231".data) monthlyWitnessCals =
      ["20231130".data, "20231229".data] :=
  ⟨by decide,
   monthly_resolver_correct ("20231101".data) ("20231231".data) monthlyWitnessCals (by decide),
   by decide⟩

/-! ## Task lifecycle tracker and concurrency controller

A fetch job's shared mutable state is the pair of atomic counters
(`successCount`, `failedCount`); each completing unit runs one atomic
update derived from its outcome and then writes progress and the loaded
counter values to the task row (`updateTaskProgress`).  The per-unit
outcome (remote call and batch insert results) is an oracle argument; the
interleaving is modelled by processing unit completions sequentially,
which is sound for these claims because each unit's counter update is a
single atomic increment. -/

/-- A fetch task row (the fields the claims are about). -/
structure FetchTask where
  status : GoStr
  progress : Nat
  totalCount : Nat
  successCount : Nat
  failedCount : Nat
  endTimeSet : Bool
deriving DecidableEq, Repr

/-- The two shared counters of a running job. -/
structure JobCounters where
  success : Nat
  failed : Nat
deriving DecidableEq, Repr

/-- Outcome of one unit of `FetchDailyDataOptimized` (lines 203–225):
the remote `GetDailyData` call either fails or yields `count` rows, and
when rows are present `batchInsertDailyData` either succeeds or fails. -/
inductive DailyFetchOutcome where
  | fetchErr
  | rows (count : Nat) (insertOk : Bool)
deriving DecidableEq, Repr

/-- The daily unit's counter update: a failed fetch or failed insert
increments `failed`, a successful insert of a non-empty day increments
`success`, and a successful fetch of an empty day increments neither. -/
def dailyStep (c : JobCounters) (o : DailyFetchOutcome) : JobCounters :=
  match o with
  | .fetchErr => { c with failed := c.failed + 1 }
  | .rows count insertOk =>
    if 0 < count then
      if insertOk then { c with success := c.success + 1 }
      else { c with failed := c.failed + 1 }
    else c

/-- Counters after the first `k` daily units (in index order) complete. -/
def dailyCountersAfter (oracle : Nat → DailyFetchOutcome) (k : Nat) : JobCounters :=
  (List.range k).foldl (fun c i => dailyStep c (oracle i)) ⟨0, 0⟩

/-- The `(progress, counters)` pairs written by `updateTaskProgress` over
a daily job, in completion order: unit `i` writes
`(i+1)*100/len(dates)` and the counter values after its own update. -/
def dailyProgressWrites (dates : List GoStr) (oracle : Nat → DailyFetchOutcome) :
    List (Nat × JobCounters) :=
  (List.range dates.length).map
    (fun i => ((i + 1) * 100 / dates.length, dailyCountersAfter oracle (i + 1)))

/-- Number of units `FetchDailyDataOptimized` dispatches: one per resolved
date. -/
def dailyDispatched (dates : List GoStr) : Nat := dates.length

/-- The final task row `FetchDailyDataOptimized` saves after all units
join (lines 240–247): status `completed`, progress 100, the counters'
final values, with `total_count` as recorded before dispatch. -/
def runFetchDailyOptimized (dates : List GoStr) (oracle : Nat → DailyFetchOutcome) : FetchTask :=
  { status := "completed".data
    progress := 100
    totalCount := dates.length
    successCount := (dailyCountersAfter oracle dates.length).success
    failedCount := (dailyCountersAfter oracle dates.length).failed
    endTimeSet := true }

/-- Outcome of one unit of `FetchWeeklyData` (lines 466–495). -/
inductive WeeklyFetchOutcome where
  | fetchErr
  | rows (count : Nat) (insertOk : Bool)
deriving DecidableEq, Repr

/-- The weekly unit's counter update: unlike the daily job, a successful
fetch of an empty day counts as a success. -/
def weeklyStep (c : JobCounters) (o : WeeklyFetchOutcome) : JobCounters :=
  match o with
  | .fetchErr => { c with failed := c.failed + 1 }
  | .rows count insertOk =>
    if 0 < count then
      if insertOk then { c with success := c.success + 1 }
      else { c with failed := c.failed + 1 }
    else { c with success := c.success + 1 }

/-- Counters after the first `k` weekly units complete. -/
def weeklyCountersAfter (oracle : Nat → WeeklyFetchOutcome) (k : Nat) : JobCounters :=
  (List.range k).foldl (fun c i => weeklyStep c (oracle i)) ⟨0, 0⟩

/-- The progress value the `k`-th completing weekly unit writes
(line 498–500): it loads both counters and computes
`(success+failed)*100/total_count`. -/
def weeklyProgressWrite (oracle : Nat → WeeklyFetchOutcome) (totalCount k : Nat) : Nat :=
  ((weeklyCountersAfter oracle k).success + (weeklyCountersAfter oracle k).failed) * 100 /
    totalCount

/-- Which daily outcomes touch a counter at all. -/
def dailyCounted : DailyFetchOutcome → Bool
  | .fetchErr => true
  | .rows count _ => 0 < count

theorem dailyCountersAfter_succ (oracle : Nat → DailyFetchOutcome) (k : Nat) :
    dailyCountersAfter oracle (k + 1) = dailyStep (dailyCountersAfter oracle k) (oracle k) := by
  unfold dailyCountersAfter
  rw [List.range_succ, List.foldl_append]
  rfl

theorem weeklyCountersAfter_succ (oracle : Nat → WeeklyFetchOutcome) (k : Nat) :
    weeklyCountersAfter oracle (k + 1) = weeklyStep (weeklyCountersAfter oracle k) (oracle k) := by
  unfold weeklyCountersAfter
  rw [List.range_succ, List.foldl_append]
  rfl

theorem weeklyCountersAfter_sum (oracle : Nat → WeeklyFetchOutcome) (k : Nat) :
    (weeklyCountersAfter oracle k).success + (weeklyCountersAfter oracle k).failed = k := by
  induction k with
  | zero => rfl
  | succ k ih =>
    rw [weeklyCountersAfter_succ]
    unfold weeklyStep
    cases oracle k with
    | fetchErr => dsimp; omega
    | rows count insertOk =>
      dsimp
      split_ifs <;> dsimp <;> omega

theorem dailyStep_sum (c : JobCounters) (o : DailyFetchOutcome) :
    (dailyStep c o).success + (dailyStep c o).failed =
      c.success + c.failed + (if dailyCounted o then 1 else 0) := by
  cases o with
  | fetchErr =>
    simp [dailyStep, dailyCounted]
    omega
  | rows count insertOk =>
    simp only [dailyStep, dailyCounted]
    by_cases hcount : 0 < count
    · simp only [if_pos hcount, decide_eq_true_eq]
      split_ifs <;> dsimp <;> omega
    · simp only [if_neg hcount, decide_eq_true_eq]
      simp [hcount]

theorem dailyCountersAfter_sum (oracle : Nat → DailyFetchOutcome) (k : Nat) :
    (dailyCountersAfter oracle k).success + (dailyCountersAfter oracle k).failed =
      (List.range k).countP (fun i => dailyCounted (oracle i)) := by
  induction k with
  | zero => rfl
  | succ k ih =>
    rw [dailyCountersAfter_succ, List.range_succ, List.countP_append, dailyStep_sum]
    have hsingle : List.countP (fun i => dailyCounted (oracle i)) [k] =
        if dailyCounted (oracle k) then 1 else 0 := by
      rcases Bool.eq_false_or_eq_true (dailyCounted (oracle k)) with h | h <;>
        simp [List.countP_cons, h]
    rw [hsingle]
    split_ifs <;> omega

/-- C9: at every point of a daily-optimized or weekly job — i.e. after any
number `k` of the job's units have completed — the counter sum is bounded
by `total_count` (the date-list length recorded before dispatch). -/
theorem counters_bounded_by_total (dates : List GoStr)
    (oracleD : Nat → DailyFetchOutcome) (oracleW : Nat → WeeklyFetchOutcome)
    (k : Nat) (hk : k ≤ dates.length) :
    (dailyCountersAfter oracleD k).success + (dailyCountersAfter oracleD k).failed ≤
      (runFetchDailyOptimized dates oracleD).totalCount ∧
    (weeklyCountersAfter oracleW k).success + (weeklyCountersAfter oracleW k).failed ≤
      dates.length := by
  constructor
  · have h := dailyCountersAfter_sum oracleD k
    have hle : (List.range k).countP (fun i => dailyCounted (oracleD i)) ≤ k := by
      have hlen : (List.range k).countP (fun i => dailyCounted (oracleD i)) ≤
          (List.range k).length := List.countP_le_length _
      rw [List.length_range] at hlen
      exact hlen
    unfold runFetchDailyOptimized
    dsimp
    omega
  · rw [weeklyCountersAfter_sum]
    exact hk

/-- Witness for C9 at a concrete job: three dates, two completions. -/
theorem counters_bounded_by_total_witness :
    (2 ≤ (["20231201".data, "20231204".data, "20231205".data] : List GoStr).length) ∧
    ((dailyCountersAfter (fun _ => DailyFetchOutcome.rows 5 true) 2).success +
       (dailyCountersAfter (fun _ => DailyFetchOutcome.rows 5 true) 2).failed ≤
       (runFetchDailyOptimized (["20231201".data, "20231204".data, "20231205".data])
         (fun _ => DailyFetchOutcome.rows 5 true)).totalCount ∧
     (weeklyCountersAfter (fun _ => WeeklyFetchOutcome.fetchErr) 2).success +
       (weeklyCountersAfter (fun _ => WeeklyFetchOutcome.fetchErr) 2).failed ≤
       (["20231201".data, "20231204".data, "20231205".data] : List GoStr).length) :=
  ⟨by decide,
   counters_bounded_by_total (["20231201".data, "20231204".data, "20231205".data])
     (fun _ => DailyFetchOutcome.rows 5 true) (fun _ => WeeklyFetchOutcome.fetchErr)
     2 (by decide)⟩

/-- C2: a fetch request whose resolved date list is empty dispatches zero
units, performs no progress-percentage division at all (the write list is
empty), and its final task row is completed with progress 100,
`total_count = 0` and zero counters. -/
theorem empty_resolved_list_completed (oracle : Nat → DailyFetchOutcome) :
    runFetchDailyOptimized [] oracle =
      { status := "completed".data, progress := 100, totalCount := 0,
        successCount := 0, failedCount := 0, endTimeSet := true } ∧
    dailyDispatched [] = 0 ∧
    dailyProgressWrites [] oracle = [] := by
  refine ⟨rfl, rfl, rfl⟩

/-- C1 counterexample: in `FetchDailyDataOptimized` a unit whose remote
fetch succeeds with zero rows increments neither counter, so after the
job's single unit completes (`total_count = 1 > 0`, one dispatched unit),
`success_count + failed_count = 0`, not the number of completed units. -/
theorem daily_empty_unit_loses_count :
    (runFetchDailyOptimized (["20231201".data])
        (fun _ => DailyFetchOutcome.rows 0 true)).totalCount = 1 ∧
    dailyDispatched (["20231201".data]) = 1 ∧
    (dailyCountersAfter (fun _ => DailyFetchOutcome.rows 0 true) 1).success +
      (dailyCountersAfter (fun _ => DailyFetchOutcome.rows 0 true) 1).failed = 0 := by
  decide

/-- C1 (amended): after `k` units of a weekly job complete the counters
sum to exactly `k` and the written progress is `k*100/total_count`
(truncating); in the daily-optimized job the counters sum to the number
of completed units that were counted at all (failed, or fetched a
non-empty day), and the `i`-th progress write is computed from the unit's
list index as `(i+1)*100/total_count` together with the counter values
after that unit. -/
theorem progress_updates_amended (dates : List GoStr)
    (oracleD : Nat → DailyFetchOutcome) (oracleW : Nat → WeeklyFetchOutcome) (k : Nat) :
    ((weeklyCountersAfter oracleW k).success + (weeklyCountersAfter oracleW k).failed = k) ∧
    (weeklyProgressWrite oracleW dates.length k = k * 100 / dates.length) ∧
    ((dailyCountersAfter oracleD k).success + (dailyCountersAfter oracleD k).failed =
      (List.range k).countP (fun i => dailyCounted (oracleD i))) ∧
    (∀ i, i < dates.length →
      (dailyProgressWrites dates oracleD).get? i =
        some ((i + 1) * 100 / dates.length, dailyCountersAfter oracleD (i + 1))) := by
  refine ⟨weeklyCountersAfter_sum oracleW k, ?_, dailyCountersAfter_sum oracleD k, ?_⟩
  · unfold weeklyProgressWrite
    rw [weeklyCountersAfter_sum]
  · intro i hi
    unfold dailyProgressWrites
    rw [List.get?_map, List.get?_range hi]
    rfl

/-- Concrete dates and outcomes for the C1 witness. -/
def c1Dates : List GoStr := ["20231201".data, "20231204".data]

/-- Daily outcomes for the C1 witness: one saved day, one failed fetch. -/
def c1DailyOracle : Nat → DailyFetchOutcome :=
  fun i => if i = 0 then DailyFetchOutcome.rows 3 true else DailyFetchOutcome.fetchErr

/-- Weekly outcomes for the C1 witness: one empty day (counted as
success), one failed fetch. -/
def c1WeeklyOracle : Nat → WeeklyFetchOutcome :=
  fun i => if i = 0 then WeeklyFetchOutcome.rows 0 true else WeeklyFetchOutcome.fetchErr

/-- Witness for the amended C1 at a concrete two-unit job, including the
instantiated progress-write fact at index 0 (hypothesis `0 < 2`
discharged). -/
theorem progress_updates_amended_witness :
    (((weeklyCountersAfter c1WeeklyOracle 2).success +
        (weeklyCountersAfter c1WeeklyOracle 2).failed = 2) ∧
     (weeklyProgressWrite c1WeeklyOracle c1Dates.length 2 = 2 * 100 / c1Dates.length) ∧
     ((dailyCountersAfter c1DailyOracle 2).success +
        (dailyCountersAfter c1DailyOracle 2).failed =
       (List.range 2).countP (fun i => dailyCounted (c1DailyOracle i))) ∧
     (∀ i, i < c1Dates.length →
       (dailyProgressWrites c1Dates c1DailyOracle).get? i =
         some ((i + 1) * 100 / c1Dates.length, dailyCountersAfter c1DailyOracle (i + 1)))) ∧
    (0 < c1Dates.length) ∧
    (dailyProgressWrites c1Dates c1DailyOracle).get? 0 =
      some (1 * 100 / c1Dates.length, dailyCountersAfter c1DailyOracle 1) :=
  ⟨progress_updates_amended c1Dates c1DailyOracle c1WeeklyOracle 2, by decide,
   (progress_updates_amended c1Dates c1DailyOracle c1WeeklyOracle 2).2.2.2 0 (by decide)⟩

/-! ## Remote data client: retry loop (`request`)

`doRequest` either fails at the transport level (`lastErr != nil`) or
returns a provider response with a status code and message.  The loop
`for i := 0; i <= c.retry; i++` retries until `lastErr == nil &&
resp.Code == 0`, sleeping `i+1` seconds after failed attempt `i` when
`i < retry`.  Each attempt's outcome is an oracle indexed by the attempt
number. -/

/-- Outcome of one `doRequest` call. -/
inductive DoResult where
  | transportErr (msg : GoStr)
  | resp (code : Int) (msg : GoStr)
deriving DecidableEq, Repr

/-- The loop's break condition: `lastErr == nil && resp.Code == 0`. -/
def isSuccess (r : DoResult) : Bool :=
  match r with
  | DoResult.resp code _ => code == 0
  | DoResult.transportErr _ => false

/-- The retry loop from attempt `i` with `r` further attempts allowed:
returns the last `doRequest` outcome, the number of calls made, and the
sleep durations performed (in seconds, in order). -/
def reqRun (oracle : Nat → DoResult) (i : Nat) : Nat → DoResult × Nat × List Nat
  | 0 => (oracle i, 1, [])
  | Nat.succ r =>
    if isSuccess (oracle i) then (oracle i, 1, [])
    else
      ((reqRun oracle (i + 1) r).1, (reqRun oracle (i + 1) r).2.1 + 1,
        (i + 1) :: (reqRun oracle (i + 1) r).2.2)

/-- `request`'s loop with the configured `retry` bound. -/
def requestModel (oracle : Nat → DoResult) (retry : Nat) : DoResult × Nat × List Nat :=
  reqRun oracle 0 retry

/-- `request`'s result: the transport error if the last call failed,
otherwise the provider error message on a non-zero code, otherwise
success. -/
def requestResult (oracle : Nat → DoResult) (retry : Nat) : Except GoStr Unit :=
  match (requestModel oracle retry).1 with
  | DoResult.transportErr e => Except.error e
  | DoResult.resp code m => if code = 0 then Except.ok () else Except.error m

theorem reqRun_spec (oracle : Nat → DoResult) :
    ∀ (r i : Nat),
      (1 ≤ (reqRun oracle i r).2.1 ∧ (reqRun oracle i r).2.1 ≤ r + 1) ∧
      ((reqRun oracle i r).2.2 =
        (List.range ((reqRun oracle i r).2.1 - 1)).map (fun k => i + k + 1)) ∧
      ((∀ k, k ≤ r → isSuccess (oracle (i + k)) = false) →
        (reqRun oracle i r).1 = oracle (i + r)) ∧
      (∀ j, j ≤ r → isSuccess (oracle (i + j)) = true →
        (∀ k, k < j → isSuccess (oracle (i + k)) = false) →
        (reqRun oracle i r).2.1 = j + 1 ∧ (reqRun oracle i r).1 = oracle (i + j)) := by
  intro r
  induction r with
  | zero =>
    intro i
    refine ⟨⟨le_refl _, le_refl _⟩, by simp [reqRun], ?_, ?_⟩
    · intro _
      simp [reqRun]
    · intro j hj _ _
      interval_cases j
      exact ⟨rfl, by simp [reqRun]⟩
  | succ r ih =>
    intro i
    have hstep : reqRun oracle i (r + 1) =
        if isSuccess (oracle i) then (oracle i, 1, [])
        else ((reqRun oracle (i + 1) r).1, (reqRun oracle (i + 1) r).2.1 + 1,
          (i + 1) :: (reqRun oracle (i + 1) r).2.2) := rfl
    by_cases hs : isSuccess (oracle i) = true
    · have hred : reqRun oracle i (r + 1) = (oracle i, 1, []) := by
        rw [hstep, if_pos hs]
      rw [hred]
      refine ⟨⟨by dsimp; omega, by dsimp; omega⟩, by simp, ?_, ?_⟩
      · intro hall
        exact absurd hs (by simpa using hall 0 (by omega))
      · intro j hj hjs hbef
        rcases Nat.eq_zero_or_pos j with rfl | hjpos
        · simpa using ⟨rfl, rfl⟩
        · exact absurd hs (by simpa using hbef 0 hjpos)
    · have hsf : isSuccess (oracle i) = false := by simpa using hs
      have hred : reqRun oracle i (r + 1) =
          ((reqRun oracle (i + 1) r).1, (reqRun oracle (i + 1) r).2.1 + 1,
            (i + 1) :: (reqRun oracle (i + 1) r).2.2) := by
        rw [hstep, if_neg hs]
      rw [hred]
      dsimp only
      obtain ⟨⟨b1, b2⟩, hsl, hfail, hfirst⟩ := ih (i + 1)
      refine ⟨⟨by omega, by omega⟩, ?_, ?_, ?_⟩
      · rw [hsl]
        have hc : (reqRun oracle (i + 1) r).2.1 + 1 - 1 =
            ((reqRun oracle (i + 1) r).2.1 - 1) + 1 := by omega
        rw [hc, List.range_succ_eq_map, List.map_cons, List.map_map]
        refine congrArg₂ _ (by omega) ?_
        apply List.map_congr_left
        intro x _
        simp
        omega
      · intro hall
        have hall' : ∀ k, k ≤ r → isSuccess (oracle (i + 1 + k)) = false := by
          intro k hk
          have := hall (k + 1) (by omega)
          have he : i + (k + 1) = i + 1 + k := by omega
          rw [he] at this
          exact this
        rw [hfail hall']
        exact congrArg _ (by omega)
      · intro j hj hjs hbef
        rcases Nat.eq_zero_or_pos j with rfl | hjpos
        · simp at hjs
          exact absurd hjs (by simp [hsf])
        · have hj' : j - 1 ≤ r := by omega
          have hjs' : isSuccess (oracle (i + 1 + (j - 1))) = true := by
            have he : i + 1 + (j - 1) = i + j := by omega
            rw [he]
            exact hjs
          have hbef' : ∀ k, k < j - 1 → isSuccess (oracle (i + 1 + k)) = false := by
            intro k hk
            have := hbef (k + 1) (by omega)
            have he : i + (k + 1) = i + 1 + k := by omega
            rw [he] at this
            exact this
          obtain ⟨hc, hf⟩ := hfirst (j - 1) hj' hjs' hbef'
          constructor
          · omega
          · rw [hf]
            exact congrArg _ (by omega)

/-- C3: the client retries up to the configured bound (`retry + 1` calls
in total), sleeps `1, 2, …` seconds after the successive failed attempts
(attempt `i`, 1-based, sleeps `i` seconds before the next try), exits on
the first success with exactly that many calls, and when every attempt
fails it surfaces the last attempt's outcome (never success). -/
theorem request_retry_correct (oracle : Nat → DoResult) (retry : Nat) :
    ((requestModel oracle retry).2.1 ≤ retry + 1) ∧
    ((requestModel oracle retry).2.2 =
      (List.range ((requestModel oracle retry).2.1 - 1)).map (fun k => k + 1)) ∧
    (∀ j, j ≤ retry → isSuccess (oracle j) = true →
      (∀ k, k < j → isSuccess (oracle k) = false) →
      (requestModel oracle retry).2.1 = j + 1 ∧ requestResult oracle retry = Except.ok ()) ∧
    ((∀ k, k ≤ retry → isSuccess (oracle k) = false) →
      (requestModel oracle retry).1 = oracle retry ∧
      requestResult oracle retry ≠ Except.ok ()) := by
  obtain ⟨⟨b1, b2⟩, hsl, hfail, hfirst⟩ := reqRun_spec oracle retry 0
  refine ⟨b2, ?_, ?_, ?_⟩
  · unfold requestModel
    rw [hsl]
    apply List.map_congr_left
    intro x _
    omega
  · intro j hj hjs hbef
    have hjs0 : isSuccess (oracle (0 + j)) = true := by simpa using hjs
    have hbef0 : ∀ k, k < j → isSuccess (oracle (0 + k)) = false := by
      intro k hk
      simpa using hbef k hk
    obtain ⟨hc, hf⟩ := hfirst j hj hjs0 hbef0
    refine ⟨hc, ?_⟩
    unfold requestResult requestModel
    rw [hf]
    have : isSuccess (oracle (0 + j)) = true := hjs0
    cases hoj : oracle (0 + j) with
    | transportErr e => rw [hoj] at this; simp [isSuccess] at this
    | resp code m =>
      rw [hoj] at this
      simp [isSuccess] at this
      simp [this]
  · intro hall
    have hall0 : ∀ k, k ≤ retry → isSuccess (oracle (0 + k)) = false := by
      intro k hk
      simpa using hall k hk
    have hf := hfail hall0
    have hlast : isSuccess (oracle retry) = false := by simpa using hall retry (le_refl _)
    constructor
    · unfold requestModel
      rw [hf]
      exact congrArg _ (by omega)
    · unfold requestResult requestModel
      rw [hf]
      have he : (0 : Nat) + retry = retry := by omega
      rw [he]
      cases hor : oracle retry with
      | transportErr e => simp
      | resp code m =>
        rw [hor] at hlast
        simp [isSuccess] at hlast
        simp [hlast]

/-- The C3 scenario provider: two transport failures, then success. -/
def scenarioOracle : Nat → DoResult :=
  fun i => if i < 2 then DoResult.transportErr ("boom".data)
           else DoResult.resp 0 ("ok".data)

/-- Witness for C3: with `retry = 3` and a provider failing twice then
succeeding, the request succeeds after exactly 3 calls, having slept
1 and 2 seconds. -/
theorem request_retry_correct_witness :
    (2 ≤ 3 ∧ isSuccess (scenarioOracle 2) = true) ∧
    ((requestModel scenarioOracle 3).2.1 = 2 + 1 ∧
     requestResult scenarioOracle 3 = Except.ok ()) ∧
    (requestModel scenarioOracle 3).2.2 = [1, 2] :=
  ⟨⟨by decide, by decide⟩,
   (request_retry_correct scenarioOracle 3).2.2.1 2 (by decide) (by decide)
     (fun k hk => by interval_cases k <;> decide),
   by decide⟩

/-! ## Remote data client: row decoding (`getString`/`getFloat`/`getTime`)

A decoded JSON row is a list of dynamic values.  Numbers are modelled by
`Rat`: the claims about these decoders are structural (pass-through or a
zero default), so exact rationals model `float64` payload values
faithfully.  The column map is Go's `map[string]int` built by
`for i, field := range data.Fields`, whose zero value for a missing key
is `0`. -/

/-- One dynamic value of a decoded provider row. -/
inductive JVal where
  | null
  | str (s : GoStr)
  | num (q : Rat)
  | intv (n : Int)
  | boolv (b : Bool)
  | other
deriving DecidableEq, Repr

/-- `getString`: empty string when the index is out of range, the entry
is nil, or the entry is not a string. -/
def getString (item : List JVal) (index : Int) : GoStr :=
  if index < 0 then []
  else
    match item.get? index.toNat with
    | none => []
    | some JVal.null => []
    | some (JVal.str s) => s
    | some _ => []

/-- `getFloat`: 0 when the index is out of range, the entry is nil, a
string, or any other non-numeric value; numeric values pass through. -/
def getFloat (item : List JVal) (index : Int) : Rat :=
  if index < 0 then 0
  else
    match item.get? index.toNat with
    | none => 0
    | some (JVal.num q) => q
    | some (JVal.intv n) => (n : Rat)
    | some _ => 0

/-- `getTime`: parse a string entry as `YYYYMMDD`, returning Go's zero
time on a missing/nil/non-string entry or a parse failure. -/
def getTime (item : List JVal) (index : Int) : Date :=
  if index < 0 then goZeroDate
  else
    match item.get? index.toNat with
    | some (JVal.str s) => (parseDate s).getD goZeroDate
    | _ => goZeroDate

/-- The Go field map build loop: each field name maps to its index, later
duplicates overwriting earlier ones; `acc` is the map so far. -/
def buildFieldMapAux (i : Int) : List GoStr → (GoStr → Int) → (GoStr → Int)
  | [], acc => acc
  | f :: rest, acc => buildFieldMapAux (i + 1) rest (fun s => if s = f then i else acc s)

/-- Look a column name up in the field map; a missing name yields the map
zero value `0`. -/
def fieldIndex (fields : List GoStr) (name : GoStr) : Int :=
  buildFieldMapAux 0 fields (fun _ => 0) name

/-- A decoded provider payload: column names and rows. -/
structure TushareData where
  fields : List GoStr
  items : List (List JVal)
deriving DecidableEq, Repr

/-- A decoded daily bar (`StockDailyData`; `Px` suffixes avoid the Lean
keyword `open`). -/
structure StockDailyData where
  tsCode : GoStr
  tradeDate : GoStr
  openPx : Rat
  highPx : Rat
  lowPx : Rat
  closePx : Rat
  preClose : Rat
  change : Rat
  pctChg : Rat
  vol : Rat
  amount : Rat
deriving DecidableEq, Repr

/-- `parseDailyData`: decode every row by column name. -/
def parseDailyData (data : TushareData) : List StockDailyData :=
  data.items.map (fun item =>
    { tsCode := getString item (fieldIndex data.fields ("ts_code".data))
      tradeDate := getString item (fieldIndex data.fields ("trade_date".data))
      openPx := getFloat item (fieldIndex data.fields ("open".data))
      highPx := getFloat item (fieldIndex data.fields ("high".data))
      lowPx := getFloat item (fieldIndex data.fields ("low".data))
      closePx := getFloat item (fieldIndex data.fields ("close".data))
      preClose := getFloat item (fieldIndex data.fields ("pre_close".data))
      change := getFloat item (fieldIndex data.fields ("change".data))
      pctChg := getFloat item (fieldIndex data.fields ("pct_chg".data))
      vol := getFloat item (fieldIndex data.fields ("vol".data))
      amount := getFloat item (fieldIndex data.fields ("amount".data)) })

theorem buildFieldMapAux_not_mem (name : GoStr) :
    ∀ (l : List GoStr) (i : Int) (acc : GoStr → Int),
      name ∉ l → buildFieldMapAux i l acc name = acc name := by
  intro l
  induction l with
  | nil => intro i acc _; rfl
  | cons f rest ih =>
    intro i acc hnm
    have h1 : name ≠ f := fun he => hnm (by simp [he])
    have h2 : name ∉ rest := fun he => hnm (by simp [he])
    unfold buildFieldMapAux
    rw [ih (i + 1) _ h2]
    rw [if_neg h1]

/-- C4 counterexample: a row whose column list lacks `ts_code` makes
`fieldMap["ts_code"]` the Go map zero value `0`, so the `ts_code` field
aliases to column 0 and decodes to `"20231201"`, not to the string zero
value `""`. -/
theorem absent_field_aliases_to_first_column :
    (("ts_code".data : GoStr) ∉
      (⟨[("trade_date".data)], [[JVal.str ("20231201".data)]]⟩ : TushareData).fields) ∧
    (parseDailyData ⟨[("trade_date".data)], [[JVal.str ("20231201".data)]]⟩).map
      (fun r => r.tsCode) = [("20231201".data)] ∧
    (("20231201".data : GoStr) ≠ []) := by
  refine ⟨by decide, ?_, by decide⟩
  rfl

/-- The Go unit test's null-values payload: full column list, one row
with `open`, `high` and the trailing columns null. -/
def c4NullOpenData : TushareData :=
  ⟨[("ts_code".data), ("trade_date".data), ("open".data), ("high".data), ("low".data),
    ("close".data), ("pre_close".data), ("change".data), ("pct_chg".data), ("vol".data),
    ("amount".data)],
   [[JVal.str ("000001.SZ".data), JVal.str ("20231201".data), JVal.null, JVal.null,
     JVal.num (102 / 10), JVal.num (108 / 10), JVal.null, JVal.null, JVal.null,
     JVal.null, JVal.null]]⟩

/-- C4 (amended): a field that is null, missing from the row, or of an
unexpected type decodes to the zero value and never raises an error, and
a row with a null `open` parses with `open = 0` and the other fields
normal; but a column name absent from the field list resolves to index 0
(the Go map zero value), so such a field reads column 0 rather than the
zero value. -/
theorem null_missing_field_decoding_amended :
    (∀ (item : List JVal) (idx : Int), idx < 0 →
      getString item idx = [] ∧ getFloat item idx = 0) ∧
    (∀ (item : List JVal) (idx : Int), 0 ≤ idx → item.get? idx.toNat = none →
      getString item idx = [] ∧ getFloat item idx = 0) ∧
    (∀ (item : List JVal) (idx : Int), 0 ≤ idx → item.get? idx.toNat = some JVal.null →
      getString item idx = [] ∧ getFloat item idx = 0) ∧
    (∀ (item : List JVal) (idx : Int) (v : JVal), 0 ≤ idx → item.get? idx.toNat = some v →
      ((∀ q, v ≠ JVal.num q) → (∀ n, v ≠ JVal.intv n) → getFloat item idx = 0) ∧
      ((∀ s, v ≠ JVal.str s) → getString item idx = [])) ∧
    (∀ (fields : List GoStr) (name : GoStr), name ∉ fields → fieldIndex fields name = 0) ∧
    ((parseDailyData c4NullOpenData).map
      (fun r => (r.tsCode, r.openPx, r.highPx, r.lowPx, r.closePx)) =
      [(("000001.SZ".data), 0, 0, 102 / 10, 108 / 10)]) := by
  refine ⟨?_, ?_, ?_, ?_, ?_, by rfl⟩
  · intro item idx h
    unfold getString getFloat
    rw [if_pos h, if_pos h]
    exact ⟨rfl, rfl⟩
  · intro item idx h hn
    unfold getString getFloat
    rw [if_neg (by omega), if_neg (by omega), hn]
    exact ⟨rfl, rfl⟩
  · intro item idx h hn
    unfold getString getFloat
    rw [if_neg (by omega), if_neg (by omega), hn]
    exact ⟨rfl, rfl⟩
  · intro item idx v h hv
    constructor
    · intro hq hn
      unfold getFloat
      rw [if_neg (by omega), hv]
      cases v with
      | num q => exact absurd rfl (hq q)
      | intv n => exact absurd rfl (hn n)
      | null => rfl
      | str s => rfl
      | boolv b => rfl
      | other => rfl
    · intro hs
      unfold getString
      rw [if_neg (by omega), hv]
      cases v with
      | str s => exact absurd rfl (hs s)
      | null => rfl
      | num q => rfl
      | intv n => rfl
      | boolv b => rfl
      | other => rfl
  · intro fields name hnm
    exact buildFieldMapAux_not_mem name fields 0 _ hnm

/-- Witness for the amended C4, instantiating the null/missing/absent
clauses at concrete rows (hypotheses discharged by evaluation). -/
theorem null_missing_field_decoding_witness :
    (((0 : Int) ≤ 2) ∧ ([JVal.str ("x".data), JVal.null] : List JVal).get? 2 = none ∧
      getString [JVal.str ("x".data), JVal.null] 2 = [] ∧
      getFloat [JVal.str ("x".data), JVal.null] 2 = 0) ∧
    (([JVal.str ("x".data), JVal.null] : List JVal).get? 1 = some JVal.null ∧
      getString [JVal.str ("x".data), JVal.null] 1 = [] ∧
      getFloat [JVal.str ("x".data), JVal.null] 1 = 0) ∧
    ((("zz".data : GoStr) ∉ ([("a".data)] : List GoStr)) ∧
      fieldIndex [("a".data)] ("zz".data) = 0) :=
  ⟨⟨by decide, by decide,
    (null_missing_field_decoding_amended.2.1 [JVal.str ("x".data), JVal.null] 2
      (by decide) (by decide)).1,
    (null_missing_field_decoding_amended.2.1 [JVal.str ("x".data), JVal.null] 2
      (by decide) (by decide)).2⟩,
   ⟨by decide,
    (null_missing_field_decoding_amended.2.2.1 [JVal.str ("x".data), JVal.null] 1
      (by decide) (by decide)).1,
    (null_missing_field_decoding_amended.2.2.1 [JVal.str ("x".data), JVal.null] 1
      (by decide) (by decide)).2⟩,
   ⟨by decide,
    null_missing_field_decoding_amended.2.2.2.2.1 [("a".data)] ("zz".data) (by decide)⟩⟩

/-! ## Batch persistence: date handling in `batchInsert{Daily,Weekly,Monthly}Data`

The batch-size chunking only splits the record list into consecutive
slices whose converted records concatenate back in order, so the record
construction is modelled as one pass over the whole batch.  Daily data
arrives with `TradeDate` as a string and is parsed here (errors logged,
zero time kept); weekly data arrives with two date strings and a parse
failure of either `continue`s past the record; monthly data arrives with
`time.Time` fields already decoded by the client and is copied verbatim. -/

/-- A decoded weekly bar (`StockWeeklyData`): both dates still strings. -/
structure StockWeeklyData where
  tsCode : GoStr
  tradeDate : GoStr
  endDate : GoStr
  openPx : Rat
  highPx : Rat
  lowPx : Rat
  closePx : Rat
  preClose : Rat
  openQfq : Rat
  highQfq : Rat
  lowQfq : Rat
  closeQfq : Rat
  openHfq : Rat
  highHfq : Rat
  lowHfq : Rat
  closeHfq : Rat
  vol : Rat
  amount : Rat
  change : Rat
  pctChg : Rat
deriving DecidableEq, Repr

/-- A decoded monthly bar (`StockMonthlyData`): dates already `time.Time`
(decoded by the client's `getTime`). -/
structure StockMonthlyData where
  tsCode : GoStr
  tradeDate : Date
  endDate : Date
  openPx : Rat
  highPx : Rat
  lowPx : Rat
  closePx : Rat
  preClose : Rat
  openQfq : Rat
  highQfq : Rat
  lowQfq : Rat
  closeQfq : Rat
  openHfq : Rat
  highHfq : Rat
  lowHfq : Rat
  closeHfq : Rat
  vol : Rat
  amount : Rat
  change : Rat
  pctChg : Rat
deriving DecidableEq, Repr

/-- A persisted daily row (`models.StockDaily`, date columns only). -/
structure StockDaily where
  tsCode : GoStr
  tradeDate : Date
  openPx : Rat
  highPx : Rat
  lowPx : Rat
  closePx : Rat
  preClose : Rat
  change : Rat
  pctChg : Rat
  vol : Rat
  amount : Rat
deriving DecidableEq, Repr

/-- A persisted weekly row (`models.StockWeekly`). -/
structure StockWeekly where
  tsCode : GoStr
  tradeDate : Date
  endDate : Date
  openPx : Rat
  highPx : Rat
  lowPx : Rat
  closePx : Rat
  preClose : Rat
  openQfq : Rat
  highQfq : Rat
  lowQfq : Rat
  closeQfq : Rat
  openHfq : Rat
  highHfq : Rat
  lowHfq : Rat
  closeHfq : Rat
  vol : Rat
  amount : Rat
  change : Rat
  pctChg : Rat
deriving DecidableEq, Repr

/-- A persisted monthly row (`models.StockMonthly`). -/
structure StockMonthly where
  tsCode : GoStr
  tradeDate : Date
  endDate : Date
  openPx : Rat
  highPx : Rat
  lowPx : Rat
  closePx : Rat
  preClose : Rat
  openQfq : Rat
  highQfq : Rat
  lowQfq : Rat
  closeQfq : Rat
  openHfq : Rat
  highHfq : Rat
  lowHfq : Rat
  closeHfq : Rat
  vol : Rat
  amount : Rat
  change : Rat
  pctChg : Rat
deriving DecidableEq, Repr

/-- One daily record as built by `batchInsertDailyData`: `time.Parse`
failure leaves the zero time (the error is only logged). -/
def dailyRecord (d : StockDailyData) : StockDaily :=
  { tsCode := d.tsCode
    tradeDate := parseDateOrZero d.tradeDate
    openPx := d.openPx
    highPx := d.highPx
    lowPx := d.lowPx
    closePx := d.closePx
    preClose := d.preClose
    change := d.change
    pctChg := d.pctChg
    vol := d.vol
    amount := d.amount }

/-- The record list built by `batchInsertDailyData` over a batch. -/
def batchInsertDailyRecords (batch : List StockDailyData) : List StockDaily :=
  batch.map dailyRecord

/-- One weekly record, given successfully parsed dates. -/
def weeklyRecord (d : StockWeeklyData) (td ed : Date) : StockWeekly :=
  { tsCode := d.tsCode
    tradeDate := td
    endDate := ed
    openPx := d.openPx
    highPx := d.highPx
    lowPx := d.lowPx
    closePx := d.closePx
    preClose := d.preClose
    openQfq := d.openQfq
    highQfq := d.highQfq
    lowQfq := d.lowQfq
    closeQfq := d.closeQfq
    openHfq := d.openHfq
    highHfq := d.highHfq
    lowHfq := d.lowHfq
    closeHfq := d.closeHfq
    vol := d.vol
    amount := d.amount
    change := d.change
    pctChg := d.pctChg }

/-- The per-record step of `batchInsertWeeklyData`: a parse failure of
either date string `continue`s (drops the record). -/
def weeklyConvert (d : StockWeeklyData) : Option StockWeekly :=
  match parseDate d.tradeDate with
  | none => none
  | some td =>
    match parseDate d.endDate with
    | none => none
    | some ed => some (weeklyRecord d td ed)

/-- The record list built by `batchInsertWeeklyData` over a batch. -/
def batchInsertWeeklyRecords (batch : List StockWeeklyData) : List StockWeekly :=
  batch.filterMap weeklyConvert

/-- One monthly record as built by `batchInsertMonthlyData`: a verbatim
field copy, no date handling at all. -/
def monthlyRecord (d : StockMonthlyData) : StockMonthly :=
  { tsCode := d.tsCode
    tradeDate := d.tradeDate
    endDate := d.endDate
    openPx := d.openPx
    highPx := d.highPx
    lowPx := d.lowPx
    closePx := d.closePx
    preClose := d.preClose
    openQfq := d.openQfq
    highQfq := d.highQfq
    lowQfq := d.lowQfq
    closeQfq := d.closeQfq
    openHfq := d.openHfq
    highHfq := d.highHfq
    lowHfq := d.lowHfq
    closeHfq := d.closeHfq
    vol := d.vol
    amount := d.amount
    change := d.change
    pctChg := d.pctChg }

/-- The record list built by `batchInsertMonthlyData` over a batch. -/
def batchInsertMonthlyRecords (batch : List StockMonthlyData) : List StockMonthly :=
  batch.map monthlyRecord

/-- `parseMonthlyData` from the client: the date columns go through
`getTime`, which zero-fills on any parse failure. -/
def parseMonthlyData (data : TushareData) : List StockMonthlyData :=
  data.items.map (fun item =>
    { tsCode := getString item (fieldIndex data.fields ("ts_code".data))
      tradeDate := getTime item (fieldIndex data.fields ("trade_date".data))
      endDate := getTime item (fieldIndex data.fields ("end_date".data))
      openPx := getFloat item (fieldIndex data.fields ("open".data))
      highPx := getFloat item (fieldIndex data.fields ("high".data))
      lowPx := getFloat item (fieldIndex data.fields ("low".data))
      closePx := getFloat item (fieldIndex data.fields ("close".data))
      preClose := getFloat item (fieldIndex data.fields ("pre_close".data))
      openQfq := getFloat item (fieldIndex data.fields ("open_qfq".data))
      highQfq := getFloat item (fieldIndex data.fields ("high_qfq".data))
      lowQfq := getFloat item (fieldIndex data.fields ("low_qfq".data))
      closeQfq := getFloat item (fieldIndex data.fields ("close_qfq".data))
      openHfq := getFloat item (fieldIndex data.fields ("open_hfq".data))
      highHfq := getFloat item (fieldIndex data.fields ("high_hfq".data))
      lowHfq := getFloat item (fieldIndex data.fields ("low_hfq".data))
      closeHfq := getFloat item (fieldIndex data.fields ("close_hfq".data))
      vol := getFloat item (fieldIndex data.fields ("vol".data))
      amount := getFloat item (fieldIndex data.fields ("amount".data))
      change := getFloat item (fieldIndex data.fields ("change".data))
      pctChg := getFloat item (fieldIndex data.fields ("pct_chg".data)) })

/-- A weekly record is kept iff both its date strings parse. -/
def weeklyKept (d : StockWeeklyData) : Bool :=
  (parseDate d.tradeDate).isSome && (parseDate d.endDate).isSome

theorem weeklyConvert_none_left {d : StockWeeklyData}
    (h : parseDate d.tradeDate = none) : weeklyConvert d = none := by
  unfold weeklyConvert
  rw [h]

theorem weeklyConvert_none_right {d : StockWeeklyData} {td : Date}
    (htd : parseDate d.tradeDate = some td) (h : parseDate d.endDate = none) :
    weeklyConvert d = none := by
  unfold weeklyConvert
  rw [htd, h]

theorem weeklyConvert_some {d : StockWeeklyData} {td ed : Date}
    (htd : parseDate d.tradeDate = some td) (hed : parseDate d.endDate = some ed) :
    weeklyConvert d = some (weeklyRecord d td ed) := by
  unfold weeklyConvert
  rw [htd, hed]

theorem batchInsertWeeklyRecords_length (batch : List StockWeeklyData) :
    (batchInsertWeeklyRecords batch).length = batch.countP weeklyKept := by
  unfold batchInsertWeeklyRecords
  induction batch with
  | nil => rfl
  | cons d rest ih =>
    rw [List.countP_cons]
    rcases htd : parseDate d.tradeDate with _ | td
    · rw [List.filterMap_cons_none (weeklyConvert_none_left htd)]
      have hk : weeklyKept d = false := by
        unfold weeklyKept
        rw [htd]
        rfl
      rw [hk, ih]
      simp
    · rcases hed : parseDate d.endDate with _ | ed
      · rw [List.filterMap_cons_none (weeklyConvert_none_right htd hed)]
        have hk : weeklyKept d = false := by
          unfold weeklyKept
          rw [htd, hed]
          rfl
        rw [hk, ih]
        simp
      · rw [List.filterMap_cons_some (weeklyConvert_some htd hed)]
        have hk : weeklyKept d = true := by
          unfold weeklyKept
          rw [htd, hed]
          rfl
        rw [hk, List.length_cons, ih]
        simp

/-- C10 counterexample: a monthly row whose trade-date string fails to
parse is NOT dropped by the batch insert.  The client already decoded the
bad string to the zero time, and `batchInsertMonthlyData` copies every
record verbatim: the batch still persists one record, with a zero
trade date. -/
theorem monthly_bad_date_kept_not_dropped :
    parseDate ("baddate".data) = none ∧
    (batchInsertMonthlyRecords (parseMonthlyData
      ⟨[("ts_code".data), ("trade_date".data), ("end_date".data)],
       [[JVal.str ("000001.SZ".data), JVal.str ("baddate".data),
         JVal.str ("20231229".data)]]⟩)).map
      (fun r => (r.tsCode, r.tradeDate, r.endDate)) =
      [(("000001.SZ".data), goZeroDate, (⟨2023, 12, 29⟩ : Date))] := by
  refine ⟨by decide, ?_⟩
  rfl

/-- C10 (amended): `batchInsertWeeklyData` drops exactly the records with
an unparseable date string (the rest of the batch is still inserted), and
`batchInsertDailyData` keeps a record with an unparseable trade-date
string, inserting it with the zero-value date; but `batchInsertMonthlyData`
performs no date parsing and never drops a record — a monthly date string
that failed to parse was already replaced by the zero time in the client's
`getTime`, so the record is inserted with a zero date, like daily. -/
theorem batch_insert_date_handling_amended :
    (∀ batch : List StockWeeklyData,
      (batchInsertWeeklyRecords batch).length = batch.countP weeklyKept) ∧
    (∀ (batch : List StockWeeklyData) (d : StockWeeklyData) (td ed : Date),
      d ∈ batch → parseDate d.tradeDate = some td → parseDate d.endDate = some ed →
      weeklyRecord d td ed ∈ batchInsertWeeklyRecords batch) ∧
    (∀ (batch : List StockWeeklyData) (r : StockWeekly),
      r ∈ batchInsertWeeklyRecords batch →
      ∃ d ∈ batch, ∃ td ed, parseDate d.tradeDate = some td ∧
        parseDate d.endDate = some ed ∧ r = weeklyRecord d td ed) ∧
    (∀ batch : List StockDailyData,
      (batchInsertDailyRecords batch).length = batch.length) ∧
    (∀ (batch : List StockDailyData) (d : StockDailyData),
      d ∈ batch → parseDate d.tradeDate = none →
      dailyRecord d ∈ batchInsertDailyRecords batch ∧
        (dailyRecord d).tradeDate = goZeroDate) ∧
    (∀ batch : List StockMonthlyData,
      (batchInsertMonthlyRecords batch).length = batch.length ∧
      ∀ d ∈ batch, monthlyRecord d ∈ batchInsertMonthlyRecords batch ∧
        (monthlyRecord d).tradeDate = d.tradeDate) ∧
    (∀ (item : List JVal) (idx : Int) (s : GoStr), 0 ≤ idx →
      item.get? idx.toNat = some (JVal.str s) → parseDate s = none →
      getTime item idx = goZeroDate) := by
  refine ⟨batchInsertWeeklyRecords_length, ?_, ?_, ?_, ?_, ?_, ?_⟩
  · intro batch d td ed hd htd hed
    exact List.mem_filterMap.mpr ⟨d, hd, weeklyConvert_some htd hed⟩
  · intro batch r hr
    obtain ⟨d, hd, heq⟩ := List.mem_filterMap.mp hr
    rcases htd : parseDate d.tradeDate with _ | td
    · rw [weeklyConvert_none_left htd] at heq
      cases heq
    · rcases hed : parseDate d.endDate with _ | ed
      · rw [weeklyConvert_none_right htd hed] at heq
        cases heq
      · rw [weeklyConvert_some htd hed] at heq
        injection heq with heq
        exact ⟨d, hd, td, ed, htd, hed, heq.symm⟩
  · intro batch
    exact List.length_map batch dailyRecord
  · intro batch d hd hnone
    refine ⟨List.mem_map_of_mem dailyRecord hd, ?_⟩
    show parseDateOrZero d.tradeDate = goZeroDate
    unfold parseDateOrZero
    rw [hnone]
    rfl
  · intro batch
    refine ⟨List.length_map batch monthlyRecord, ?_⟩
    intro d hd
    exact ⟨List.mem_map_of_mem monthlyRecord hd, rfl⟩
  · intro item idx s h hget hnone
    unfold getTime
    rw [if_neg (by omega), hget]
    dsimp only
    rw [hnone]
    rfl

/-- Concrete weekly batch for the C10 witness: one good record, one with
an unparseable trade date. -/
def c10GoodWeekly : StockWeeklyData :=
  { tsCode := ("000001.SZ".data), tradeDate := ("20231201".data),
    endDate := ("20231208".data), openPx := 1, highPx := 2, lowPx := 3,
    closePx := 4, preClose := 5, openQfq := 0, highQfq := 0, lowQfq := 0,
    closeQfq := 0, openHfq := 0, highHfq := 0, lowHfq := 0, closeHfq := 0,
    vol := 6, amount := 7, change := 0, pctChg := 0 }

/-- The bad weekly record of the C10 witness batch. -/
def c10BadWeekly : StockWeeklyData :=
  { tsCode := ("000002.SZ".data), tradeDate := ("oops".data),
    endDate := ("20231208".data), openPx := 0, highPx := 0, lowPx := 0,
    closePx := 0, preClose := 0, openQfq := 0, highQfq := 0, lowQfq := 0,
    closeQfq := 0, openHfq := 0, highHfq := 0, lowHfq := 0, closeHfq := 0,
    vol := 0, amount := 0, change := 0, pctChg := 0 }

/-- Concrete daily record with an unparseable trade date for the C10
witness. -/
def c10BadDaily : StockDailyData :=
  { tsCode := ("000001.SZ".data), tradeDate := ("nodate".data), openPx := 0,
    highPx := 0, lowPx := 0, closePx := 0, preClose := 0, change := 0,
    pctChg := 0, vol := 0, amount := 0 }

/-- Witness for the amended C10: on a two-record weekly batch with one bad
date, exactly one record survives and it is the good one; the bad daily
record is kept with a zero date; the bad monthly string zero-fills in
`getTime`. -/
theorem batch_insert_date_handling_witness :
    ((batchInsertWeeklyRecords [c10GoodWeekly, c10BadWeekly]).length =
      List.countP weeklyKept [c10GoodWeekly, c10BadWeekly] ∧
      List.countP weeklyKept [c10GoodWeekly, c10BadWeekly] = 1) ∧
    (c10GoodWeekly ∈ [c10GoodWeekly, c10BadWeekly] ∧
      parseDate c10GoodWeekly.tradeDate = some ⟨2023, 12, 1⟩ ∧
      parseDate c10GoodWeekly.endDate = some ⟨2023, 12, 8⟩ ∧
      weeklyRecord c10GoodWeekly ⟨2023, 12, 1⟩ ⟨2023, 12, 8⟩ ∈
        batchInsertWeeklyRecords [c10GoodWeekly, c10BadWeekly]) ∧
    (c10BadDaily ∈ [c10BadDaily] ∧ parseDate c10BadDaily.tradeDate = none ∧
      dailyRecord c10BadDaily ∈ batchInsertDailyRecords [c10BadDaily] ∧
      (dailyRecord c10BadDaily).tradeDate = goZeroDate) ∧
    (((0 : Int) ≤ 0) ∧
      ([JVal.str ("baddate".data)] : List JVal).get? 0 =
        some (JVal.str ("baddate".data)) ∧
      parseDate ("baddate".data) = none ∧
      getTime [JVal.str ("baddate".data)] 0 = goZeroDate) :=
  ⟨⟨batch_insert_date_handling_amended.1 [c10GoodWeekly, c10BadWeekly], by decide⟩,
   ⟨by decide, by decide, by decide,
    batch_insert_date_handling_amended.2.1 [c10GoodWeekly, c10BadWeekly]
      c10GoodWeekly ⟨2023, 12, 1⟩ ⟨2023, 12, 8⟩ (by decide) (by decide) (by decide)⟩,
   ⟨by decide, by decide,
    (batch_insert_date_handling_amended.2.2.2.2.1 [c10BadDaily] c10BadDaily
      (by decide) (by decide)).1,
    (batch_insert_date_handling_amended.2.2.2.2.1 [c10BadDaily] c10BadDaily
      (by decide) (by decide)).2⟩,
   ⟨by decide, by decide, by decide,
    batch_insert_date_handling_amended.2.2.2.2.2.2 [JVal.str ("baddate".data)] 0
      ("baddate".data) (by decide) (by decide) (by decide)⟩⟩

end StockData
